import Mathlib

/-!
Verification development for the exam-scheduler backend.

Shallow embedding of `app/scheduler.py`, `app/parsers.py` and
`app/validators.py`.  Python lists become `List`, dicts become
insertion-ordered association lists with the same get/update semantics,
`datetime` values become day ordinals (proleptic Gregorian day counts),
and code that can raise (`datetime.strptime`) returns `Option`.
Human-readable message strings whose only role is to be returned are
kept, except that the float formatting in `select_optimal_dates`'s
message is abstracted into an inductive message type carrying the same
numeric payloads.
-/

namespace SchedulerSpec

/-! ### Date parsing: `datetime.strptime(s, "%d-%m-%y")`

CPython's `_strptime` compiles `%d-%m-%y` to the regular expression
`(3[01]|[12]\d|0[1-9]|[1-9])-(1[0-2]|0[1-9]|[1-9])-(\d\d)` and requires it
to consume the whole string; it then builds a `datetime`, which rejects
days past the end of the month.  Years are pivoted: 00-68 ↦ 2000-2068,
69-99 ↦ 1969-1999. -/

def digitVal (c : Char) : Nat := c.toNat - 48

def numVal (cs : List Char) : Nat := cs.foldl (fun a c => a * 10 + digitVal c) 0

/-- Split a character list at every '-', like `str.split("-")` (always at
least one group, empty groups kept). -/
def splitDashes (cs : List Char) : List (List Char) :=
  match cs with
  | [] => [[]]
  | c :: rest =>
    if c = '-' then [] :: splitDashes rest
    else
      match splitDashes rest with
      | g :: gs => (c :: g) :: gs
      | [] => [[c]]

/-- Python's `str.strip()`: drop leading and trailing whitespace. -/
def pyStrip (s : String) : String :=
  ⟨(((s.toList.dropWhile Char.isWhitespace).reverse.dropWhile Char.isWhitespace).reverse)⟩

/-- ASCII digit, the `\d` of the strptime regex (codes 48-57). -/
def isDigitChar (c : Char) : Bool := 48 ≤ c.toNat && c.toNat ≤ 57

/-- Day field of `%d`: `3[01]|[12]\d|0[1-9]|[1-9]`, i.e. one digit 1-9
(codes 49-57) or two digits with value 1..31. -/
def validDay (cs : List Char) : Bool :=
  match cs with
  | [c] => 49 ≤ c.toNat && c.toNat ≤ 57
  | [c1, c2] => isDigitChar c1 && isDigitChar c2 && (1 ≤ numVal [c1, c2] && numVal [c1, c2] ≤ 31)
  | _ => false

/-- Month field of `%m`: `1[0-2]|0[1-9]|[1-9]`, i.e. one digit 1-9 or two
digits with value 1..12. -/
def validMonth (cs : List Char) : Bool :=
  match cs with
  | [c] => 49 ≤ c.toNat && c.toNat ≤ 57
  | [c1, c2] => isDigitChar c1 && isDigitChar c2 && (1 ≤ numVal [c1, c2] && numVal [c1, c2] ≤ 12)
  | _ => false

/-- Year field of `%y`: exactly two digits. -/
def validYear (cs : List Char) : Bool :=
  match cs with
  | [c1, c2] => isDigitChar c1 && isDigitChar c2
  | _ => false

def yearOfYY (yy : Nat) : Nat := if yy ≤ 68 then 2000 + yy else 1900 + yy

def isLeap (year : Nat) : Bool :=
  year % 4 = 0 && (year % 100 ≠ 0 || year % 400 = 0)

def daysInMonth (year month : Nat) : Nat :=
  if month = 2 then (if isLeap year then 29 else 28)
  else if month = 4 ∨ month = 6 ∨ month = 9 ∨ month = 11 then 30
  else 31

/-- Day ordinal of a proleptic-Gregorian calendar day, counted from
0000-03-01 (Howard Hinnant's `days_from_civil`).  Differences of ordinals
equal differences of `datetime` values in days. -/
def daysFromCivil (y m d : Nat) : Nat :=
  let y' := if m ≤ 2 then y - 1 else y
  let era := y' / 400
  let yoe := y' % 400
  let mp := if 2 < m then m - 3 else m + 9
  let doy := (153 * mp + 2) / 5 + (d - 1)
  let doe := yoe * 365 + yoe / 4 - yoe / 100 + doy
  era * 146097 + doe

/-- `parse_date` / `datetime.strptime(s, "%d-%m-%y")`: `some` ordinal on
success, `none` models the raised `ValueError`. -/
def parseDMY (s : String) : Option Nat :=
  match splitDashes s.toList with
  | [ds, ms, ys] =>
    if validDay ds && validMonth ms && validYear ys then
      let d := numVal ds
      let m := numVal ms
      let y := yearOfYY (numVal ys)
      if d ≤ daysInMonth y m then some (daysFromCivil y m d) else none
    else none
  | _ => none

/-- `datetime.max` (9999-12-31), the sentinel key `parse_dates` gives to
malformed tokens. -/
def dateMaxOrd : Nat := daysFromCivil 9999 12 31

/-- Sort key used by `parse_dates`: the parsed ordinal, or `datetime.max`
for malformed tokens. -/
def pyDateKey (s : String) : Nat := (parseDMY s).getD dateMaxOrd

/-- `date_diff_days`: `abs((d2 - d1).days)`; `none` models the
`ValueError` raised on a malformed argument. -/
def date_diff_days (date1 date2 : String) : Option Nat :=
  match parseDMY date1, parseDMY date2 with
  | some a, some b => some (max a b - min a b)
  | _, _ => none

/-! ### `app/parsers.py`: `parse_dates` -/

def keyLE (p q : Nat × String) : Bool := decide (p.1 ≤ q.1)

/-- `parse_dates`: strip each token, key it by its parsed date (malformed
tokens get `datetime.max`), stable-sort by key, return the tokens. -/
def parse_dates (date_strings : List String) : List String :=
  let parsed := date_strings.map (fun s => (pyDateKey (pyStrip s), pyStrip s))
  (parsed.mergeSort keyLE).map (fun p => p.2)

/-! ### Data model (`app/models.py`) -/

structure Examiner where
  id : String
  name : String
deriving DecidableEq, Repr

structure Batch where
  name : String
  register_numbers : List String
deriving DecidableEq, Repr

structure Semester where
  name : String
  batches : List Batch
deriving DecidableEq, Repr

structure ExamMetadata where
  exam_name : Option String
  semester : Option String
  department : Option String
  academic_year : Option String
deriving DecidableEq, Repr

structure ExamDate where
  date : String
  subject : Option String
  register_numbers : List String
deriving DecidableEq, Repr

structure TimeSlot where
  time : String
  session : String
  capacity : Nat
  register_numbers : List String
deriving DecidableEq, Repr, Inhabited

structure LabSchedule where
  date : String
  subject : Option String
  lab : String
  slots : List TimeSlot
  internal_examiner : Option Examiner
  external_examiner : Option Examiner
  semester : Option String
  batch : Option String
deriving DecidableEq, Repr, Inhabited

structure ScheduleRequest where
  exam_metadata : Option ExamMetadata
  register_numbers : List String
  semesters : List Semester
  dates : List String
  exam_dates : List ExamDate
  labs : List String
  internal_examiners : List Examiner
  external_examiners : List Examiner
deriving DecidableEq, Repr

structure ValidationError where
  field : String
  message : String
deriving DecidableEq, Repr

/-! ### `app/scheduler.py`: constants and small helpers -/

def STUDENTS_PER_LAB : Nat := 25
def FORENOON_CAPACITY : Nat := 13
def AFTERNOON_CAPACITY : Nat := 12
def LABS_PER_DAY : Nat := 5
def DAILY_CAPACITY : Nat := STUDENTS_PER_LAB * LABS_PER_DAY

def FORENOON_TIME : String := "09:30 am - 12:30 pm"
def AFTERNOON_TIME : String := "01:30 pm - 04:30 pm"

def create_time_slot (session : String) (register_numbers : List String) : TimeSlot :=
  if session = "forenoon" then
    { time := FORENOON_TIME, session := "forenoon",
      capacity := register_numbers.length, register_numbers := register_numbers }
  else
    { time := AFTERNOON_TIME, session := "afternoon",
      capacity := register_numbers.length, register_numbers := register_numbers }

/-- `split_into_slots`: forenoon gets `students[:13]`, afternoon
`students[13:25]`. -/
def split_into_slots (students : List String) : List String × List String :=
  (students.take FORENOON_CAPACITY,
   (students.drop FORENOON_CAPACITY).take AFTERNOON_CAPACITY)

def create_lab_schedule (date lab : String) (students : List String)
    (internal_examiner external_examiner : Option Examiner)
    (semester batch subject : Option String) : LabSchedule :=
  let split := split_into_slots students
  { date := date, subject := subject, lab := lab,
    slots := [create_time_slot "forenoon" split.1, create_time_slot "afternoon" split.2],
    internal_examiner := internal_examiner, external_examiner := external_examiner,
    semester := semester, batch := batch }

/-! ### Python dict models

Insertion-ordered association lists: `dict_set` overwrites in place or
appends, `dict_bump` is `m[k] = m.get(k, 0) + 1`, lookups take the (unique)
matching entry. -/

def dict_set (m : List (String × String × String)) (k : String) (v : String × String) :
    List (String × String × String) :=
  if m.any (fun e => e.1 = k) then m.map (fun e => if e.1 = k then (k, v) else e)
  else m ++ [(k, v)]

def dict_lookup (m : List (String × String × String)) (k : String) :
    Option (String × String) :=
  (m.find? (fun e => e.1 = k)).map (fun e => e.2)

def dict_bump (m : List ((String × String) × Nat)) (k : String × String) :
    List ((String × String) × Nat) :=
  if m.any (fun e => e.1 = k) then m.map (fun e => if e.1 = k then (e.1, e.2 + 1) else e)
  else m ++ [(k, 1)]

def subjects_get (date_subjects : List (String × String)) (date : String) : Option String :=
  (date_subjects.find? (fun e => e.1 = date)).map (fun e => e.2)

def drn_get (date_register_numbers : List (String × List String)) (date : String) :
    List String :=
  ((date_register_numbers.find? (fun e => e.1 = date)).map (fun e => e.2)).getD []

/-- The `reg_to_sem_batch` mapping: for every semester, batch and register
number, map the register number to `(sem_name, sem_name ++ batch_name)`. -/
def build_reg_to_sem_batch (semesters : List Semester) : List (String × String × String) :=
  semesters.foldl (fun m sem =>
    sem.batches.foldl (fun m batch =>
      batch.register_numbers.foldl
        (fun m reg => dict_set m reg (sem.name, sem.name ++ batch.name)) m) m) []

/-- The distinct values of a list in order of first occurrence (the key
insertion order of a Python dict built by tallying). -/
def distincts {α : Type} [DecidableEq α] : List α → List α
  | [] => []
  | x :: rest => x :: distincts (rest.filter (fun y => y ≠ x))
termination_by l => l.length
decreasing_by
  simp only [List.length_cons]
  exact Nat.lt_succ_of_le (List.length_filter_le _ _)

/-- The per-chunk cohort attribution block of `allocate_students`
(lines 369-387 / 310-325): tally `(semester, batchLabel)` pairs over the
chunk, pick `max(..., key=count)` (first maximum in insertion order), and
when several distinct pairs occur replace the batch by the comma-joined
sorted distinct labels. -/
def chunk_sem_batch (reg_to_sem_batch : List (String × String × String))
    (chunk : List String) : Option String × Option String :=
  if reg_to_sem_batch.isEmpty then (none, none)
  else
    let batch_counts := chunk.foldl (fun m reg =>
      match dict_lookup reg_to_sem_batch reg with
      | some sem_batch => dict_bump m sem_batch
      | none => m) []
    match batch_counts with
    | [] => (none, none)
    | first :: rest =>
      let most_common := rest.foldl (fun best e => if best.2 < e.2 then e else best) first
      let semester := most_common.1.1
      let batch :=
        if 1 < (first :: rest).length then
          String.intercalate ", "
            ((distincts ((first :: rest).map (fun e => e.1.2))).mergeSort
              (fun a b => decide (a ≤ b)))
        else most_common.1.2
      (some semester, some batch)

/-- One date's inner lab loop of `allocate_students`: walk the labs,
carving chunks `students[idx : min(idx+25, total)]`, stopping once
`total ≤ idx`; returns the emitted schedules and the final index. -/
def allocate_lab_pass (date : String) (subject : Option String)
    (students : List String) (total : Nat)
    (internal_examiners external_examiners : List Examiner)
    (reg_to_sem_batch : List (String × String × String)) :
    List String → Nat → Nat → List LabSchedule × Nat
  | [], _, idx => ([], idx)
  | lab :: labs, lab_index, idx =>
    if total ≤ idx then ([], idx)
    else
      let chunk_end := min (idx + STUDENTS_PER_LAB) total
      let chunk := (students.drop idx).take (chunk_end - idx)
      if chunk.isEmpty then
        allocate_lab_pass date subject students total internal_examiners
          external_examiners reg_to_sem_batch labs (lab_index + 1) idx
      else
        let internal_exam := if internal_examiners.isEmpty then none
          else internal_examiners[lab_index % internal_examiners.length]?
        let external_exam := if external_examiners.isEmpty then none
          else external_examiners[lab_index % external_examiners.length]?
        let sem_batch := chunk_sem_batch reg_to_sem_batch chunk
        let schedule := create_lab_schedule date lab chunk internal_exam external_exam
          sem_batch.1 sem_batch.2 subject
        let step := allocate_lab_pass date subject students total internal_examiners
          external_examiners reg_to_sem_batch labs (lab_index + 1) chunk_end
        (schedule :: step.1, step.2)

/-- Sequential mode of `allocate_students`: walk the dates, threading the
global index through each date's lab pass, stopping once the candidate
list is exhausted. -/
def allocate_sequential (register_numbers : List String) (total : Nat)
    (labs : List String) (internal_examiners external_examiners : List Examiner)
    (reg_to_sem_batch : List (String × String × String))
    (date_subjects : List (String × String)) :
    List String → Nat → List LabSchedule
  | [], _ => []
  | date :: dates, idx =>
    if total ≤ idx then []
    else
      let subject := subjects_get date_subjects date
      let pass := allocate_lab_pass date subject register_numbers total
        internal_examiners external_examiners reg_to_sem_batch labs 0 idx
      pass.1 ++ allocate_sequential register_numbers total labs internal_examiners
        external_examiners reg_to_sem_batch date_subjects dates pass.2

/-- Date-keyed mode of `allocate_students`: every date draws from its own
sublist `date_register_numbers.get(date, [])`, all dates are processed. -/
def allocate_date_keyed (labs : List String)
    (internal_examiners external_examiners : List Examiner)
    (reg_to_sem_batch : List (String × String × String))
    (date_subjects : List (String × String))
    (date_register_numbers : List (String × List String)) :
    List String → List LabSchedule
  | [] => []
  | date :: dates =>
    let date_students := drn_get date_register_numbers date
    let subject := subjects_get date_subjects date
    let pass := allocate_lab_pass date subject date_students date_students.length
      internal_examiners external_examiners reg_to_sem_batch labs 0 0
    pass.1 ++ allocate_date_keyed labs internal_examiners external_examiners
      reg_to_sem_batch date_subjects date_register_numbers dates

/-- `allocate_students`: builds `reg_to_sem_batch`, then runs in date-keyed
mode when a per-date mapping is supplied, and in sequential mode
otherwise. -/
def allocate_students (register_numbers dates labs : List String)
    (internal_examiners external_examiners : List Examiner)
    (semesters : List Semester)
    (date_subjects : List (String × String))
    (date_register_numbers : List (String × List String)) : List LabSchedule :=
  let reg_to_sem_batch := build_reg_to_sem_batch semesters
  if date_register_numbers.isEmpty then
    allocate_sequential register_numbers register_numbers.length labs
      internal_examiners external_examiners reg_to_sem_batch date_subjects dates 0
  else
    allocate_date_keyed labs internal_examiners external_examiners reg_to_sem_batch
      date_subjects date_register_numbers dates

/-- `get_all_register_numbers`: flatten schedules in order, each schedule
slot by slot. -/
def get_all_register_numbers : List LabSchedule → List String
  | [] => []
  | schedule :: schedules =>
    (schedule.slots.map (fun slot => slot.register_numbers)).flatten ++
      get_all_register_numbers schedules

/-- Total candidates of one schedule (both sessions). -/
def schedule_student_count (schedule : LabSchedule) : Nat :=
  (schedule.slots.map (fun slot => slot.register_numbers.length)).sum

def date_count_bump (m : List (String × Nat)) (k : String) (n : Nat) : List (String × Nat) :=
  if m.any (fun e => e.1 = k) then m.map (fun e => if e.1 = k then (e.1, e.2 + n) else e)
  else m ++ [(k, n)]

/-- `count_students_per_date`: insertion-ordered date → total map. -/
def count_students_per_date (schedules : List LabSchedule) : List (String × Nat) :=
  schedules.foldl (fun m schedule =>
    date_count_bump m schedule.date (schedule_student_count schedule)) []

/-! ### `app/scheduler.py`: `select_optimal_dates`

The returned message strings are abstracted into `SelectMsg`; each
constructor is one of the source's return messages with its numeric
payloads (the only lost detail is the `:.1f` float rendering of the
average gap, whose raw data is kept as the gap list). -/

inductive SelectMsg where
  /-- "No dates provided" -/
  | noDates
  /-- "No students to schedule" -/
  | noStudents
  /-- "Warning: Only {avail} dates available, need {needed} for {count} students" -/
  | shortfall (avail : Nat) (needed : Int) (count : Int)
  /-- "Selected 1 date for {count} students" -/
  | one (count : Int)
  /-- "Selected {n} dates (gap constraint relaxed due to limited dates)" -/
  | relaxed (n : Nat)
  /-- "Selected {n} dates for {count} students (avg gap: ... days)" -/
  | chosen (n : Nat) (count : Int) (gaps : List Nat)
deriving DecidableEq, Repr

/-- `math.ceil(student_count / DAILY_CAPACITY)` (exact ceiling). -/
def required_days_for (student_count : Int) : Int :=
  if 0 ≤ student_count then ((student_count.toNat + (DAILY_CAPACITY - 1)) / DAILY_CAPACITY : Nat)
  else -(((-student_count).toNat / DAILY_CAPACITY : Nat))

/-- Python's `l[:n]` for an `int` bound (negative bounds drop from the
end). -/
def py_take {α : Type} (l : List α) (n : Int) : List α :=
  if 0 ≤ n then l.take n.toNat else l.take (l.length - min l.length (-n).toNat)

/-- Key every token by `parse_date`; `none` models the `ValueError`
raised inside `sorted(..., key=parse_date)` on the first malformed
token. -/
def parse_all : List String → Option (List (String × Nat))
  | [] => some []
  | d :: rest =>
    match parseDMY d, parse_all rest with
    | some o, some ps => some ((d, o) :: ps)
    | _, _ => none

def ordLE (p q : String × Nat) : Bool := decide (p.2 ≤ q.2)

/-- `sorted(available_dates, key=lambda d: parse_date(d))`, carrying each
token's ordinal alongside it. -/
def sort_by_date (available_dates : List String) : Option (List (String × Nat)) :=
  (parse_all available_dates).map (fun ps => ps.mergeSort ordLE)

def natDist (a b : Nat) : Nat := max a b - min a b

/-- The greedy gap walk: accept the next date iff its distance from the
last accepted one is at least `min_gap_days`, stop once enough dates are
accepted. -/
def greedy_walk (required_days min_gap_days : Int) :
    List (String × Nat) → List (String × Nat) → List (String × Nat)
  | selected, [] => selected
  | selected, d :: rest =>
    if required_days ≤ (selected.length : Int) then selected
    else
      let gap := natDist (selected.getLastD ("", 0)).2 d.2
      if min_gap_days ≤ (gap : Int) then
        greedy_walk required_days min_gap_days (selected ++ [d]) rest
      else greedy_walk required_days min_gap_days selected rest

/-- Consecutive gaps of the selected dates (for the result message). -/
def gaps_of : List (String × Nat) → List Nat
  | p :: q :: rest => natDist p.2 q.2 :: gaps_of (q :: rest)
  | _ => []

/-- `select_optimal_dates`; `none` models an uncaught exception. -/
def select_optimal_dates (available_dates : List String) (student_count : Int)
    (min_gap_days : Int) : Option (List String × SelectMsg) :=
  if available_dates.isEmpty then some ([], .noDates)
  else
    let required_days := required_days_for student_count
    if required_days = 0 then some ([], .noStudents)
    else
      (sort_by_date available_dates).map (fun sorted_dates =>
        if (sorted_dates.length : Int) < required_days then
          (sorted_dates.map (fun p => p.1),
           .shortfall sorted_dates.length required_days student_count)
        else if required_days = 1 then
          ([(sorted_dates.headI).1], .one student_count)
        else if min_gap_days ≤ 1 then
          let selected := py_take sorted_dates required_days
          (selected.map (fun p => p.1),
           .chosen selected.length student_count (gaps_of selected))
        else
          let selected := greedy_walk required_days min_gap_days
            (sorted_dates.take 1) (sorted_dates.drop 1)
          if (selected.length : Int) < required_days then
            let fallback := py_take sorted_dates required_days
            (fallback.map (fun p => p.1), .relaxed fallback.length)
          else
            (selected.map (fun p => p.1),
             .chosen selected.length student_count (gaps_of selected)))

/-! ### `app/validators.py` -/

def MIN_REGISTER_NUMBERS : Nat := 1
def DEFAULT_LABS : List String := ["Lab 1", "Lab 2", "Lab 3", "Lab 4", "Lab 5"]

/-- `calculate_required_dates`. -/
def calculate_required_dates (student_count : Nat) : Nat :=
  if student_count = 0 then 0
  else (student_count + (DAILY_CAPACITY - 1)) / DAILY_CAPACITY

/-- `calculate_additional_dates_needed` (`max(0, required - provided)` is
Nat subtraction). -/
def calculate_additional_dates_needed (student_count provided_dates : Nat) : Nat :=
  calculate_required_dates student_count - provided_dates

def validate_register_numbers (register_numbers : List String) : Option ValidationError :=
  if register_numbers.isEmpty then
    some { field := "register_numbers",
           message := "At least one register number is required to generate a schedule" }
  else none

def validate_labs (labs : List String) : Option ValidationError × List String :=
  if labs.isEmpty then (none, DEFAULT_LABS) else (none, labs)

def validate_internal_examiners (_examiners : List Examiner) : Option ValidationError :=
  none

def validate_external_examiners (_examiners : List Examiner) : Option ValidationError :=
  none

def validate_exam_metadata (_metadata : Option ExamMetadata) : Option ValidationError :=
  none

/-- `validate_dates`: hard error on the first token whose stripped form
fails `strptime("%d-%m-%y")`, otherwise an advisory capacity warning. -/
def validate_dates (dates : List String) (student_count : Nat) :
    Option ValidationError × Option String :=
  if dates.isEmpty then
    (none, some "No dates provided. Please add exam dates for scheduling.")
  else
    match dates.find? (fun date_str => (parseDMY (pyStrip date_str)).isNone) with
    | some date_str =>
      (some { field := "dates",
              message := "Invalid date format: " ++ date_str ++ ". Expected DD-MM-YY" },
       none)
    | none =>
      let additional_needed :=
        calculate_additional_dates_needed student_count dates.length
      if 0 < additional_needed then
        let required := calculate_required_dates student_count
        (none, some ("Note: " ++ toString student_count ++ " students may need " ++
          toString required ++ " dates. You provided " ++ toString dates.length ++ "."))
      else (none, none)

/-- `validate_schedule_request`: collects errors and warnings in source
order; date validation runs only when at least one register number is
present. -/
def validate_schedule_request (request : ScheduleRequest) :
    List ValidationError × List String :=
  let errors : List ValidationError := []
  let warnings : List String := []
  let errors := match validate_exam_metadata request.exam_metadata with
    | some e => errors ++ [e]
    | none => errors
  let errors := match validate_register_numbers request.register_numbers with
    | some e => errors ++ [e]
    | none => errors
  let labs_check := validate_labs request.labs
  let errors := match labs_check.1 with
    | some e => errors ++ [e]
    | none => errors
  let warnings := if request.labs.isEmpty then
      warnings ++ ["Using default labs: " ++ String.intercalate ", " DEFAULT_LABS]
    else warnings
  let errors := match validate_internal_examiners request.internal_examiners with
    | some e => errors ++ [e]
    | none => errors
  let warnings := if request.internal_examiners.isEmpty then
      warnings ++
        ["No internal examiners provided. Schedule will be generated without examiner assignments."]
    else warnings
  let errors := match validate_external_examiners request.external_examiners with
    | some e => errors ++ [e]
    | none => errors
  let warnings := if request.external_examiners.isEmpty then
      warnings ++
        ["No external examiners provided. Schedule will be generated without examiner assignments."]
    else warnings
  if request.register_numbers.isEmpty then (errors, warnings)
  else
    let dates_check := validate_dates request.dates request.register_numbers.length
    let errors := match dates_check.1 with
      | some e => errors ++ [e]
      | none => errors
    let warnings := match dates_check.2 with
      | some w => warnings ++ [w]
      | none => warnings
    (errors, warnings)

/-- Value of the first entry for key `d` (0 when absent). -/
def keyFind (m : List (String × Nat)) (d : String) : Nat :=
  ((m.find? (fun p => p.1 = d)).map (fun p => p.2)).getD 0

/-- The pair the spec designates under ties: walking the distinct mapped
pairs in first-encounter (chunk) order, the first one whose tally over the
mapped chunk is maximal. -/
def first_max_pair (mapped : List (String × String)) : Option (String × String) :=
  (distincts mapped).find?
    (fun k => decide (∀ q ∈ mapped, mapped.count q ≤ mapped.count k))

/-! ### Lemmas about the allocation engine -/

lemma create_lab_schedule_slots (date lab : String) (students : List String)
    (iex eex : Option Examiner) (sem bat subj : Option String) :
    (create_lab_schedule date lab students iex eex sem bat subj).slots =
      [create_time_slot "forenoon" (students.take FORENOON_CAPACITY),
       create_time_slot "afternoon" ((students.drop FORENOON_CAPACITY).take AFTERNOON_CAPACITY)] := by
  rfl

lemma create_lab_schedule_flat (date lab : String) (students : List String)
    (iex eex : Option Examiner) (sem bat subj : Option String)
    (h : students.length ≤ STUDENTS_PER_LAB) :
    ((create_lab_schedule date lab students iex eex sem bat subj).slots.map
      (fun slot => slot.register_numbers)).flatten = students := by
  rw [create_lab_schedule_slots]
  show students.take FORENOON_CAPACITY ++
    (((students.drop FORENOON_CAPACITY).take AFTERNOON_CAPACITY) ++ []) = students
  rw [List.append_nil, ← List.take_add, List.take_of_length_le]
  exact h

lemma lab_pass_snd (date : String) (subject : Option String) (students : List String)
    (total : Nat) (ie ee : List Examiner) (rl : List (String × String × String))
    (labs : List String) (li idx : Nat)
    (htot : total = students.length) (hidx : idx ≤ total) :
    (allocate_lab_pass date subject students total ie ee rl labs li idx).2 =
      min (idx + labs.length * STUDENTS_PER_LAB) total := by
  induction labs generalizing li idx with
  | nil => simp [allocate_lab_pass]; omega
  | cons lab labs ih =>
    by_cases hle : total ≤ idx
    · simp only [allocate_lab_pass, if_pos hle]
      simp; omega
    · have hlt : idx < total := by omega
      have hne : ((students.drop idx).take (min (idx + STUDENTS_PER_LAB) total - idx)).isEmpty = false := by
        have h1 : ((students.drop idx).take (min (idx + STUDENTS_PER_LAB) total - idx)).length =
            min (min (idx + STUDENTS_PER_LAB) total - idx) (students.length - idx) := by
          simp [List.length_take, List.length_drop]
        have h2 : 0 < ((students.drop idx).take (min (idx + STUDENTS_PER_LAB) total - idx)).length := by
          rw [h1]; simp [STUDENTS_PER_LAB]; omega
        rcases h : ((students.drop idx).take (min (idx + STUDENTS_PER_LAB) total - idx)).isEmpty with _ | _
        · rfl
        · rw [List.isEmpty_iff] at h; rw [h] at h2; simp at h2
      simp only [allocate_lab_pass, if_neg hle, hne]
      simp only [Bool.false_eq_true, if_false]
      rw [ih (li + 1) (min (idx + STUDENTS_PER_LAB) total) (by omega)]
      have hmul : (labs.length + 1) * STUDENTS_PER_LAB =
          labs.length * STUDENTS_PER_LAB + STUDENTS_PER_LAB := by ring
      simp only [List.length_cons]
      omega

lemma get_all_append (l₁ l₂ : List LabSchedule) :
    get_all_register_numbers (l₁ ++ l₂) =
      get_all_register_numbers l₁ ++ get_all_register_numbers l₂ := by
  induction l₁ with
  | nil => rfl
  | cons s l₁ ih => simp [get_all_register_numbers, ih]

lemma lab_pass_flat (date : String) (subject : Option String) (students : List String)
    (total : Nat) (ie ee : List Examiner) (rl : List (String × String × String))
    (labs : List String) (li idx : Nat)
    (htot : total = students.length) (hidx : idx ≤ total) :
    get_all_register_numbers (allocate_lab_pass date subject students total ie ee rl labs li idx).1 =
      (students.drop idx).take
        ((allocate_lab_pass date subject students total ie ee rl labs li idx).2 - idx) := by
  induction labs generalizing li idx with
  | nil => simp [allocate_lab_pass, get_all_register_numbers]
  | cons lab labs ih =>
    by_cases hle : total ≤ idx
    · simp [allocate_lab_pass, if_pos hle, get_all_register_numbers]
    · have hlt : idx < total := by omega
      set ce := min (idx + STUDENTS_PER_LAB) total with hce
      have hchunklen : ((students.drop idx).take (ce - idx)).length = ce - idx := by
        simp [List.length_take, List.length_drop]; omega
      have hne : ((students.drop idx).take (ce - idx)).isEmpty = false := by
        rcases h : ((students.drop idx).take (ce - idx)).isEmpty with _ | _
        · rfl
        · rw [List.isEmpty_iff] at h
          rw [h] at hchunklen
          simp at hchunklen
          simp [STUDENTS_PER_LAB] at hce
          omega
      have hsnd := lab_pass_snd date subject students total ie ee rl labs (li + 1) ce
        htot (by omega)
      simp only [allocate_lab_pass, if_neg hle, hne]
      simp only [Bool.false_eq_true, if_false]
      simp only [get_all_register_numbers]
      have h25 : STUDENTS_PER_LAB = 25 := rfl
      rw [create_lab_schedule_flat _ _ _ _ _ _ _ _ (by rw [hchunklen]; omega)]
      rw [ih (li + 1) ce (by omega), hsnd]
      have hsplit : (students.drop idx).take (min (ce + labs.length * STUDENTS_PER_LAB) total - idx) =
          (students.drop idx).take (ce - idx) ++
            ((students.drop idx).drop (ce - idx)).take
              (min (ce + labs.length * STUDENTS_PER_LAB) total - ce) := by
        rw [← List.take_add]
        congr 1
        omega
      rw [List.drop_drop] at hsplit
      have hidx2 : idx + (ce - idx) = ce := by omega
      rw [hidx2] at hsplit
      rw [← hsplit]

lemma seq_flat (register_numbers : List String) (total : Nat) (labs : List String)
    (ie ee : List Examiner) (rl : List (String × String × String))
    (dsub : List (String × String)) (dates : List String) (idx : Nat)
    (htot : total = register_numbers.length) (hidx : idx ≤ total) :
    get_all_register_numbers
        (allocate_sequential register_numbers total labs ie ee rl dsub dates idx) =
      (register_numbers.drop idx).take
        (min (idx + dates.length * (labs.length * STUDENTS_PER_LAB)) total - idx) := by
  induction dates generalizing idx with
  | nil => simp [allocate_sequential, get_all_register_numbers]
  | cons date dates ih =>
    by_cases hle : total ≤ idx
    · have hd : register_numbers.drop idx = [] :=
        List.drop_eq_nil_of_le (by omega)
      simp [allocate_sequential, if_pos hle, get_all_register_numbers, hd]
    · have hsnd := lab_pass_snd date (subjects_get dsub date) register_numbers total ie ee rl
        labs 0 idx htot hidx
      have hflat := lab_pass_flat date (subjects_get dsub date) register_numbers total ie ee rl
        labs 0 idx htot hidx
      simp only [allocate_sequential, if_neg hle]
      rw [get_all_append, hflat, hsnd]
      rw [ih (min (idx + labs.length * STUDENTS_PER_LAB) total) (by omega)]
      set L := labs.length * STUDENTS_PER_LAB with hL
      have hmul : (dates.length + 1) * L = dates.length * L + L := by ring
      have hsplit : (register_numbers.drop idx).take
            (min (idx + (dates.length + 1) * L) total - idx) =
          (register_numbers.drop idx).take (min (idx + L) total - idx) ++
            ((register_numbers.drop idx).drop (min (idx + L) total - idx)).take
              (min (min (idx + L) total + dates.length * L) total - min (idx + L) total) := by
        rw [← List.take_add]
        congr 1
        omega
      rw [List.drop_drop] at hsplit
      have hidx2 : idx + (min (idx + L) total - idx) = min (idx + L) total := by omega
      rw [hidx2] at hsplit
      rw [List.length_cons]
      rw [← hsplit]

lemma keyed_flat (labs : List String) (ie ee : List Examiner)
    (rl : List (String × String × String)) (dsub : List (String × String))
    (drn : List (String × List String)) (dates : List String) :
    get_all_register_numbers (allocate_date_keyed labs ie ee rl dsub drn dates) =
      (dates.map (fun d => (drn_get drn d).take
        (min (labs.length * STUDENTS_PER_LAB) (drn_get drn d).length))).flatten := by
  induction dates with
  | nil => simp [allocate_date_keyed, get_all_register_numbers]
  | cons date dates ih =>
    simp only [allocate_date_keyed]
    rw [get_all_append, ih]
    have hflat := lab_pass_flat date (subjects_get dsub date) (drn_get drn date)
      (drn_get drn date).length ie ee rl labs 0 0 rfl (by omega)
    have hsnd := lab_pass_snd date (subjects_get dsub date) (drn_get drn date)
      (drn_get drn date).length ie ee rl labs 0 0 rfl (by omega)
    rw [hflat, hsnd]
    simp [Nat.min_comm]

lemma lab_pass_shape (date : String) (subject : Option String) (students : List String)
    (total : Nat) (ie ee : List Examiner) (rl : List (String × String × String))
    (labs : List String) (li idx : Nat) :
    ∀ s ∈ (allocate_lab_pass date subject students total ie ee rl labs li idx).1,
      ∃ lab chunk iex eex sem bat, chunk.length ≤ STUDENTS_PER_LAB ∧
        s = create_lab_schedule date lab chunk iex eex sem bat subject := by
  induction labs generalizing li idx with
  | nil => simp [allocate_lab_pass]
  | cons lab labs ih =>
    intro s hs
    by_cases hle : total ≤ idx
    · simp [allocate_lab_pass, if_pos hle] at hs
    · simp only [allocate_lab_pass, if_neg hle] at hs
      rcases h : ((students.drop idx).take (min (idx + STUDENTS_PER_LAB) total - idx)).isEmpty with _ | _
      · rw [h] at hs
        simp only [Bool.false_eq_true, if_false, List.mem_cons] at hs
        rcases hs with hs | hs
        · refine ⟨lab, (students.drop idx).take (min (idx + STUDENTS_PER_LAB) total - idx),
            _, _, _, _, ?_, hs⟩
          have := List.length_take (min (idx + STUDENTS_PER_LAB) total - idx) (students.drop idx)
          have h25 : STUDENTS_PER_LAB = 25 := rfl
          omega
        · exact ih (li + 1) (min (idx + STUDENTS_PER_LAB) total) s hs
      · rw [h] at hs
        simp only [if_true] at hs
        exact ih (li + 1) idx s hs

lemma seq_shape (register_numbers : List String) (total : Nat) (labs : List String)
    (ie ee : List Examiner) (rl : List (String × String × String))
    (dsub : List (String × String)) (dates : List String) (idx : Nat) :
    ∀ s ∈ allocate_sequential register_numbers total labs ie ee rl dsub dates idx,
      ∃ d lab chunk iex eex sem bat subj, d ∈ dates ∧ chunk.length ≤ STUDENTS_PER_LAB ∧
        s = create_lab_schedule d lab chunk iex eex sem bat subj := by
  induction dates generalizing idx with
  | nil => simp [allocate_sequential]
  | cons date dates ih =>
    intro s hs
    by_cases hle : total ≤ idx
    · simp [allocate_sequential, if_pos hle] at hs
    · simp only [allocate_sequential, if_neg hle, List.mem_append] at hs
      rcases hs with hs | hs
      · obtain ⟨lab, chunk, iex, eex, sem, bat, hlen, heq⟩ :=
          lab_pass_shape date (subjects_get dsub date) register_numbers total ie ee rl
            labs 0 idx s hs
        exact ⟨date, lab, chunk, iex, eex, sem, bat, _, List.mem_cons_self _ _, hlen, heq⟩
      · obtain ⟨d, lab, chunk, iex, eex, sem, bat, subj, hd, hlen, heq⟩ := ih _ s hs
        exact ⟨d, lab, chunk, iex, eex, sem, bat, subj, List.mem_cons_of_mem _ hd, hlen, heq⟩

lemma keyed_shape (labs : List String) (ie ee : List Examiner)
    (rl : List (String × String × String)) (dsub : List (String × String))
    (drn : List (String × List String)) (dates : List String) :
    ∀ s ∈ allocate_date_keyed labs ie ee rl dsub drn dates,
      ∃ d lab chunk iex eex sem bat subj, d ∈ dates ∧ chunk.length ≤ STUDENTS_PER_LAB ∧
        s = create_lab_schedule d lab chunk iex eex sem bat subj := by
  induction dates with
  | nil => simp [allocate_date_keyed]
  | cons date dates ih =>
    intro s hs
    simp only [allocate_date_keyed, List.mem_append] at hs
    rcases hs with hs | hs
    · obtain ⟨lab, chunk, iex, eex, sem, bat, hlen, heq⟩ :=
        lab_pass_shape date (subjects_get dsub date) (drn_get drn date)
          (drn_get drn date).length ie ee rl labs 0 0 s hs
      exact ⟨date, lab, chunk, iex, eex, sem, bat, _, List.mem_cons_self _ _, hlen, heq⟩
    · obtain ⟨d, lab, chunk, iex, eex, sem, bat, subj, hd, hlen, heq⟩ := ih s hs
      exact ⟨d, lab, chunk, iex, eex, sem, bat, subj, List.mem_cons_of_mem _ hd, hlen, heq⟩

lemma allocate_students_shape (register_numbers dates labs : List String)
    (ie ee : List Examiner) (sems : List Semester) (dsub : List (String × String))
    (drn : List (String × List String)) :
    ∀ s ∈ allocate_students register_numbers dates labs ie ee sems dsub drn,
      ∃ d lab chunk iex eex sem bat subj, chunk.length ≤ STUDENTS_PER_LAB ∧
        s = create_lab_schedule d lab chunk iex eex sem bat subj := by
  intro s hs
  unfold allocate_students at hs
  by_cases hd : drn.isEmpty
  · rw [if_pos hd] at hs
    obtain ⟨d, lab, chunk, iex, eex, sem, bat, subj, _, hlen, heq⟩ :=
      seq_shape register_numbers register_numbers.length labs ie ee _ dsub dates 0 s hs
    exact ⟨d, lab, chunk, iex, eex, sem, bat, subj, hlen, heq⟩
  · rw [if_neg hd] at hs
    obtain ⟨d, lab, chunk, iex, eex, sem, bat, subj, _, hlen, heq⟩ :=
      keyed_shape labs ie ee _ dsub drn dates s hs
    exact ⟨d, lab, chunk, iex, eex, sem, bat, subj, hlen, heq⟩

/-! ### Claims C1, C2, C9 -/

/-- Claim C9: in sequential mode the flattened output (date, then lab, then
forenoon, then afternoon) is exactly the prefix of the input register-number
list of length `min(len(register_numbers), len(dates) * len(labs) * 25)`;
candidates beyond the combined capacity are silently omitted. -/
theorem C9_sequential_truncated_to_capacity (register_numbers dates labs : List String)
    (ie ee : List Examiner) (sems : List Semester) (dsub : List (String × String)) :
    get_all_register_numbers (allocate_students register_numbers dates labs ie ee sems dsub []) =
      register_numbers.take
        (min register_numbers.length (dates.length * labs.length * STUDENTS_PER_LAB)) := by
  have hmode : allocate_students register_numbers dates labs ie ee sems dsub [] =
      allocate_sequential register_numbers register_numbers.length labs ie ee
        (build_reg_to_sem_batch sems) dsub dates 0 := rfl
  rw [hmode]
  rw [seq_flat register_numbers register_numbers.length labs ie ee _ dsub dates 0 rfl (by omega)]
  simp only [List.drop_zero, Nat.zero_add, Nat.sub_zero]
  congr 1
  have : dates.length * labs.length * STUDENTS_PER_LAB =
      dates.length * (labs.length * STUDENTS_PER_LAB) := by ring
  rw [this, Nat.min_comm]

/-- Claim C1 (amended): when capacity suffices, every input candidate appears
in the output exactly as in the input and the flattened output order equals
the input order.  Sequential mode: if
`len(register_numbers) ≤ len(dates)*len(labs)*25` the flattened output equals
the input list.  Date-keyed mode: if every date's sublist fits
(`≤ len(labs)*25`), the flattened output equals the concatenation over the
date list of the per-date sublists.  (Without these capacity conditions
trailing candidates are dropped — see the counterexample.) -/
theorem C1_exact_allocation (register_numbers dates labs : List String)
    (ie ee : List Examiner) (sems : List Semester) (dsub : List (String × String))
    (drn : List (String × List String)) :
    (register_numbers.length ≤ dates.length * labs.length * STUDENTS_PER_LAB →
      get_all_register_numbers
          (allocate_students register_numbers dates labs ie ee sems dsub []) =
        register_numbers) ∧
    (drn ≠ [] → (∀ d ∈ dates, (drn_get drn d).length ≤ labs.length * STUDENTS_PER_LAB) →
      get_all_register_numbers
          (allocate_students register_numbers dates labs ie ee sems dsub drn) =
        (dates.map (fun d => drn_get drn d)).flatten) := by
  constructor
  · intro hcap
    rw [C9_sequential_truncated_to_capacity]
    rw [min_eq_left hcap, List.take_length]
  · intro hne hcap
    unfold allocate_students
    rw [if_neg (by simpa [List.isEmpty_iff] using hne)]
    rw [keyed_flat]
    congr 1
    apply List.map_congr_left
    intro d hd
    rw [min_eq_right (hcap d hd)]
    exact List.take_length _

/-- Counterexample to Claim C1 as stated: with one candidate and an empty
date list (capacity 0), the candidate "A" is lost — it appears zero times in
the output, so not every input candidate appears exactly once for *every*
candidate/date/lab list. -/
theorem C1_counterexample :
    "A" ∈ ["A"] ∧
      get_all_register_numbers (allocate_students ["A"] [] ["Lab 1"] [] [] [] [] []) = [] := by
  constructor
  · decide
  · rfl

/-- Witness for C1_exact_allocation at a concrete input (both modes). -/
theorem C1_exact_allocation_witness :
    get_all_register_numbers
        (allocate_students ["a", "b"] ["01-01-25"] ["Lab 1"] [] [] [] [] []) = ["a", "b"] ∧
      get_all_register_numbers
          (allocate_students [] ["01-01-25"] ["Lab 1"] [] [] [] []
            [("01-01-25", ["c"])]) =
        (["01-01-25"].map (fun d => drn_get [("01-01-25", ["c"])] d)).flatten := by
  constructor
  · exact (C1_exact_allocation ["a", "b"] ["01-01-25"] ["Lab 1"] [] [] [] []
      [("01-01-25", ["c"])]).1 (by decide)
  · exact (C1_exact_allocation [] ["01-01-25"] ["Lab 1"] [] [] [] []
      [("01-01-25", ["c"])]).2 (by decide) (by decide)

/-- Claim C2: every schedule produced by `allocate_students` has exactly two
sessions, forenoon then afternoon, both present even when empty; the
forenoon session holds at most 13 candidates, the afternoon at most 12,
their total is at most 25, and the afternoon is non-empty only if the
forenoon holds exactly 13. -/
theorem C2_two_bounded_sessions (register_numbers dates labs : List String)
    (ie ee : List Examiner) (sems : List Semester) (dsub : List (String × String))
    (drn : List (String × List String)) (s : LabSchedule)
    (hs : s ∈ allocate_students register_numbers dates labs ie ee sems dsub drn) :
    ∃ f a, s.slots = [f, a] ∧ f.session = "forenoon" ∧ a.session = "afternoon" ∧
      f.register_numbers.length ≤ FORENOON_CAPACITY ∧
      a.register_numbers.length ≤ AFTERNOON_CAPACITY ∧
      f.register_numbers.length + a.register_numbers.length ≤ STUDENTS_PER_LAB ∧
      (a.register_numbers ≠ [] → f.register_numbers.length = FORENOON_CAPACITY) := by
  obtain ⟨d, lab, chunk, iex, eex, sem, bat, subj, _, heq⟩ :=
    allocate_students_shape register_numbers dates labs ie ee sems dsub drn s hs
  refine ⟨create_time_slot "forenoon" (chunk.take FORENOON_CAPACITY),
    create_time_slot "afternoon" ((chunk.drop FORENOON_CAPACITY).take AFTERNOON_CAPACITY),
    ?_, rfl, rfl, ?_, ?_, ?_, ?_⟩
  · rw [heq, create_lab_schedule_slots]
  · show (chunk.take FORENOON_CAPACITY).length ≤ FORENOON_CAPACITY
    simp [List.length_take]
  · show ((chunk.drop FORENOON_CAPACITY).take AFTERNOON_CAPACITY).length ≤ AFTERNOON_CAPACITY
    simp [List.length_take]
  · show (chunk.take FORENOON_CAPACITY).length +
        ((chunk.drop FORENOON_CAPACITY).take AFTERNOON_CAPACITY).length ≤ STUDENTS_PER_LAB
    have h1 := List.length_take FORENOON_CAPACITY chunk
    have h2 := List.length_take AFTERNOON_CAPACITY (chunk.drop FORENOON_CAPACITY)
    have h3 := List.length_drop FORENOON_CAPACITY chunk
    have hf : FORENOON_CAPACITY = 13 := rfl
    have ha : AFTERNOON_CAPACITY = 12 := rfl
    have h25 : STUDENTS_PER_LAB = 25 := rfl
    omega
  · intro hne
    show (chunk.take FORENOON_CAPACITY).length = FORENOON_CAPACITY
    have hpos : 0 < ((chunk.drop FORENOON_CAPACITY).take AFTERNOON_CAPACITY).length := by
      have : (create_time_slot "afternoon"
          ((chunk.drop FORENOON_CAPACITY).take AFTERNOON_CAPACITY)).register_numbers =
          (chunk.drop FORENOON_CAPACITY).take AFTERNOON_CAPACITY := rfl
      rw [this] at hne
      exact List.length_pos.mpr hne
    have h1 := List.length_take FORENOON_CAPACITY chunk
    have h2 := List.length_take AFTERNOON_CAPACITY (chunk.drop FORENOON_CAPACITY)
    have h3 := List.length_drop FORENOON_CAPACITY chunk
    omega

/-- Witness for C2_two_bounded_sessions on a concrete 25-candidate run. -/
theorem C2_two_bounded_sessions_witness :
    ∃ f a, ((allocate_students ["r1"] ["01-01-25"] ["Lab 1"] [] [] [] [] []).headI).slots =
        [f, a] ∧ f.session = "forenoon" ∧ a.session = "afternoon" ∧
      f.register_numbers.length ≤ FORENOON_CAPACITY ∧
      a.register_numbers.length ≤ AFTERNOON_CAPACITY ∧
      f.register_numbers.length + a.register_numbers.length ≤ STUDENTS_PER_LAB ∧
      (a.register_numbers ≠ [] → f.register_numbers.length = FORENOON_CAPACITY) :=
  C2_two_bounded_sessions ["r1"] ["01-01-25"] ["Lab 1"] [] [] [] [] []
    ((allocate_students ["r1"] ["01-01-25"] ["Lab 1"] [] [] [] [] []).headI) (by decide)

/-! ### Claim C3: per-date totals -/

lemma find_of_mem_nodup_keys (m : List (String × Nat))
    (hnd : (m.map Prod.fst).Nodup) :
    ∀ e ∈ m, m.find? (fun p => p.1 = e.1) = some e := by
  induction m with
  | nil => simp
  | cons a m ih =>
    intro e he
    simp only [List.map_cons, List.nodup_cons] at hnd
    rcases List.mem_cons.mp he with he | he
    · subst he
      simp [List.find?_cons_of_pos]
    · have hne : a.1 ≠ e.1 := by
        intro hcontra
        exact hnd.1 (hcontra ▸ List.mem_map_of_mem Prod.fst he)
      rw [List.find?_cons_of_neg _ (by simp [hne])]
      exact ih hnd.2 e he

lemma bump_keys (m : List (String × Nat)) (k : String) (n : Nat) :
    (date_count_bump m k n).map Prod.fst =
      if m.any (fun e => e.1 = k) then m.map Prod.fst else m.map Prod.fst ++ [k] := by
  by_cases h : m.any (fun e => e.1 = k)
  · rw [if_pos h]
    unfold date_count_bump
    rw [if_pos h, List.map_map]
    apply List.map_congr_left
    intro e _
    by_cases he : e.1 = k <;> simp [he]
  · rw [if_neg h]
    unfold date_count_bump
    rw [if_neg h]
    simp

lemma bump_keys_nodup (m : List (String × Nat)) (k : String) (n : Nat)
    (hnd : (m.map Prod.fst).Nodup) :
    ((date_count_bump m k n).map Prod.fst).Nodup := by
  rw [bump_keys]
  by_cases h : m.any (fun e => e.1 = k)
  · rwa [if_pos h]
  · rw [if_neg h]
    rw [List.nodup_append]
    refine ⟨hnd, List.nodup_singleton k, ?_⟩
    intro x hx hk
    simp only [List.mem_singleton] at hk
    obtain ⟨e, he, hek⟩ := List.mem_map.mp hx
    exact h (List.any_eq_true.mpr ⟨e, he, by simp [hek, hk]⟩)

lemma bump_keyFind (m : List (String × Nat)) (k : String) (n : Nat) (d : String) :
    keyFind (date_count_bump m k n) d =
      if d = k then keyFind m d + n else keyFind m d := by
  unfold date_count_bump
  by_cases hany : m.any (fun e => e.1 = k)
  · rw [if_pos hany]
    have hcomp : ((fun p : String × Nat => decide (p.1 = d)) ∘
        (fun e : String × Nat => if e.1 = k then (e.1, e.2 + n) else e)) =
        fun p : String × Nat => decide (p.1 = d) := by
      funext e
      by_cases he : e.1 = k <;> simp [he]
    rw [keyFind, List.find?_map, hcomp]
    rcases hfind : m.find? (fun p => p.1 = d) with _ | e
    · have hnd : ¬ d = k := by
        intro hdk
        subst hdk
        obtain ⟨e, he, hek⟩ := List.any_eq_true.mp hany
        exact (List.find?_eq_none.mp hfind e he) hek
      rw [if_neg hnd, keyFind, hfind]
      rfl
    · have hed : e.1 = d := by simpa using List.find?_some hfind
      rw [keyFind, hfind]
      by_cases hdk : d = k
      · rw [if_pos hdk]
        simp [hed, hdk]
      · rw [if_neg hdk]
        simp [hed, hdk]
  · rw [if_neg hany]
    have hnone : m.find? (fun p => p.1 = k) = none := by
      rw [List.find?_eq_none]
      intro e he hek
      exact hany (List.any_eq_true.mpr ⟨e, he, hek⟩)
    by_cases hdk : d = k
    · subst hdk
      rw [keyFind, List.find?_append, hnone, Option.none_or,
        List.find?_cons_of_pos _ (by simp), if_pos rfl, keyFind, hnone]
      simp
    · have hsing : List.find? (fun p : String × Nat => p.1 = d) [(k, n)] = none := by
        rw [List.find?_eq_none]
        intro x hx
        simp only [List.mem_singleton] at hx
        subst hx
        simp only [decide_eq_true_eq]
        exact fun h => hdk h.symm
      rw [keyFind, List.find?_append, hsing, Option.or_none, if_neg hdk, keyFind]

lemma count_fold_entries (scheds : List LabSchedule) :
    ∀ (m : List (String × Nat)), (m.map Prod.fst).Nodup →
      ∀ e ∈ scheds.foldl (fun m s =>
          date_count_bump m s.date (schedule_student_count s)) m,
        e.2 = keyFind m e.1 +
          ((scheds.filter (fun t => t.date = e.1)).map schedule_student_count).sum := by
  induction scheds with
  | nil =>
    intro m hnd e he
    simp only [List.foldl_nil] at he
    rw [keyFind, find_of_mem_nodup_keys m hnd e he]
    simp
  | cons s scheds ih =>
    intro m hnd e he
    simp only [List.foldl_cons] at he
    have hstep := ih (date_count_bump m s.date (schedule_student_count s))
      (bump_keys_nodup m s.date (schedule_student_count s) hnd) e he
    rw [hstep, bump_keyFind]
    by_cases hd : e.1 = s.date
    · rw [if_pos hd]
      rw [@List.filter_cons_of_pos _ (fun t : LabSchedule => decide (t.date = e.1)) s scheds
        (by simp [hd.symm])]
      simp only [List.map_cons, List.sum_cons]
      omega
    · rw [if_neg hd]
      rw [@List.filter_cons_of_neg _ (fun t : LabSchedule => decide (t.date = e.1)) s scheds
        (by simp only [decide_eq_true_eq]; exact fun h => hd h.symm)]

lemma count_students_per_date_entries (scheds : List LabSchedule) :
    ∀ e ∈ count_students_per_date scheds,
      e.2 = ((scheds.filter (fun t => t.date = e.1)).map schedule_student_count).sum := by
  intro e he
  have h := count_fold_entries scheds [] (by simp) e he
  simpa [keyFind] using h

lemma sum_counts_eq_len (scheds : List LabSchedule) :
    (scheds.map schedule_student_count).sum = (get_all_register_numbers scheds).length := by
  induction scheds with
  | nil => rfl
  | cons s scheds ih =>
    simp only [List.map_cons, List.sum_cons, get_all_register_numbers,
      List.length_append, ih, List.length_flatten, List.map_map]
    rfl

lemma lab_pass_dates (date : String) (subject : Option String) (students : List String)
    (total : Nat) (ie ee : List Examiner) (rl : List (String × String × String))
    (labs : List String) (li idx : Nat) :
    ∀ s ∈ (allocate_lab_pass date subject students total ie ee rl labs li idx).1,
      s.date = date := by
  intro s hs
  obtain ⟨lab, chunk, iex, eex, sem, bat, _, heq⟩ :=
    lab_pass_shape date subject students total ie ee rl labs li idx s hs
  rw [heq]
  rfl

lemma lab_pass_sum_le (date : String) (subject : Option String) (students : List String)
    (total : Nat) (ie ee : List Examiner) (rl : List (String × String × String))
    (labs : List String) (li idx : Nat)
    (htot : total = students.length) (hidx : idx ≤ total) :
    ((allocate_lab_pass date subject students total ie ee rl labs li idx).1.map
      schedule_student_count).sum ≤ labs.length * STUDENTS_PER_LAB := by
  rw [sum_counts_eq_len,
    lab_pass_flat date subject students total ie ee rl labs li idx htot hidx]
  have hsnd := lab_pass_snd date subject students total ie ee rl labs li idx htot hidx
  have hlen := List.length_take
    ((allocate_lab_pass date subject students total ie ee rl labs li idx).2 - idx)
    (students.drop idx)
  omega

lemma seq_dates (register_numbers : List String) (total : Nat) (labs : List String)
    (ie ee : List Examiner) (rl : List (String × String × String))
    (dsub : List (String × String)) (dates : List String) (idx : Nat) :
    ∀ s ∈ allocate_sequential register_numbers total labs ie ee rl dsub dates idx,
      s.date ∈ dates := by
  intro s hs
  obtain ⟨d, lab, chunk, iex, eex, sem, bat, subj, hd, _, heq⟩ :=
    seq_shape register_numbers total labs ie ee rl dsub dates idx s hs
  rw [heq]
  exact hd

lemma keyed_dates (labs : List String) (ie ee : List Examiner)
    (rl : List (String × String × String)) (dsub : List (String × String))
    (drn : List (String × List String)) (dates : List String) :
    ∀ s ∈ allocate_date_keyed labs ie ee rl dsub drn dates, s.date ∈ dates := by
  intro s hs
  obtain ⟨d, lab, chunk, iex, eex, sem, bat, subj, hd, _, heq⟩ :=
    keyed_shape labs ie ee rl dsub drn dates s hs
  rw [heq]
  exact hd

lemma seq_date_sum_le (register_numbers : List String) (total : Nat) (labs : List String)
    (ie ee : List Examiner) (rl : List (String × String × String))
    (dsub : List (String × String)) (dates : List String) (idx : Nat)
    (htot : total = register_numbers.length) (hidx : idx ≤ total)
    (hnd : dates.Nodup) (d : String) :
    (((allocate_sequential register_numbers total labs ie ee rl dsub dates idx).filter
        (fun s => s.date = d)).map schedule_student_count).sum ≤
      labs.length * STUDENTS_PER_LAB := by
  induction dates generalizing idx with
  | nil => simp [allocate_sequential]
  | cons date dates ih =>
    by_cases hle : total ≤ idx
    · simp [allocate_sequential, if_pos hle]
    · simp only [allocate_sequential, if_neg hle, List.filter_append, List.map_append,
        List.sum_append]
      simp only [List.nodup_cons] at hnd
      by_cases hd : d = date
      · have hpass : ((allocate_lab_pass date (subjects_get dsub date) register_numbers
            total ie ee rl labs 0 idx).1.filter (fun s => s.date = d)) =
            (allocate_lab_pass date (subjects_get dsub date) register_numbers
              total ie ee rl labs 0 idx).1 := by
          rw [List.filter_eq_self]
          intro s hs
          have := lab_pass_dates date (subjects_get dsub date) register_numbers total
            ie ee rl labs 0 idx s hs
          simp [this, hd]
        have hrest : ((allocate_sequential register_numbers total labs ie ee rl dsub dates
            (allocate_lab_pass date (subjects_get dsub date) register_numbers total
              ie ee rl labs 0 idx).2).filter (fun s => s.date = d)) = [] := by
          rw [List.filter_eq_nil_iff]
          intro s hs
          have hmem := seq_dates register_numbers total labs ie ee rl dsub dates _ s hs
          simp only [decide_eq_true_eq]
          intro heqq
          rw [heqq, hd] at hmem
          exact hnd.1 hmem
        rw [hpass, hrest]
        simp only [List.map_nil, List.sum_nil, Nat.add_zero]
        exact lab_pass_sum_le date (subjects_get dsub date) register_numbers total
          ie ee rl labs 0 idx htot (by omega)
      · have hpass : ((allocate_lab_pass date (subjects_get dsub date) register_numbers
            total ie ee rl labs 0 idx).1.filter (fun s => s.date = d)) = [] := by
          rw [List.filter_eq_nil_iff]
          intro s hs
          have := lab_pass_dates date (subjects_get dsub date) register_numbers total
            ie ee rl labs 0 idx s hs
          simp only [decide_eq_true_eq, this]
          exact fun h => hd h.symm
        rw [hpass]
        simp only [List.map_nil, List.sum_nil, Nat.zero_add]
        exact ih _ (by
          have := lab_pass_snd date (subjects_get dsub date) register_numbers total
            ie ee rl labs 0 idx htot (by omega)
          omega) hnd.2

lemma keyed_date_sum_le (labs : List String) (ie ee : List Examiner)
    (rl : List (String × String × String)) (dsub : List (String × String))
    (drn : List (String × List String)) (dates : List String)
    (hnd : dates.Nodup) (d : String) :
    (((allocate_date_keyed labs ie ee rl dsub drn dates).filter
        (fun s => s.date = d)).map schedule_student_count).sum ≤
      labs.length * STUDENTS_PER_LAB := by
  induction dates with
  | nil => simp [allocate_date_keyed]
  | cons date dates ih =>
    simp only [allocate_date_keyed, List.filter_append, List.map_append, List.sum_append]
    simp only [List.nodup_cons] at hnd
    by_cases hd : d = date
    · have hpass : ((allocate_lab_pass date (subjects_get dsub date) (drn_get drn date)
          (drn_get drn date).length ie ee rl labs 0 0).1.filter (fun s => s.date = d)) =
          (allocate_lab_pass date (subjects_get dsub date) (drn_get drn date)
            (drn_get drn date).length ie ee rl labs 0 0).1 := by
        rw [List.filter_eq_self]
        intro s hs
        have := lab_pass_dates date (subjects_get dsub date) (drn_get drn date)
          (drn_get drn date).length ie ee rl labs 0 0 s hs
        simp [this, hd]
      have hrest : ((allocate_date_keyed labs ie ee rl dsub drn dates).filter
          (fun s => s.date = d)) = [] := by
        rw [List.filter_eq_nil_iff]
        intro s hs
        have hmem := keyed_dates labs ie ee rl dsub drn dates s hs
        simp only [decide_eq_true_eq]
        intro heqq
        rw [heqq, hd] at hmem
        exact hnd.1 hmem
      rw [hpass, hrest]
      simp only [List.map_nil, List.sum_nil, Nat.add_zero]
      exact lab_pass_sum_le date (subjects_get dsub date) (drn_get drn date)
        (drn_get drn date).length ie ee rl labs 0 0 rfl (by omega)
    · have hpass : ((allocate_lab_pass date (subjects_get dsub date) (drn_get drn date)
          (drn_get drn date).length ie ee rl labs 0 0).1.filter (fun s => s.date = d)) = [] := by
        rw [List.filter_eq_nil_iff]
        intro s hs
        have := lab_pass_dates date (subjects_get dsub date) (drn_get drn date)
          (drn_get drn date).length ie ee rl labs 0 0 s hs
        simp only [decide_eq_true_eq, this]
        exact fun h => hd h.symm
      rw [hpass]
      simp only [List.map_nil, List.sum_nil, Nat.zero_add]
      exact ih hnd.2

/-- Claim C3 (amended): for every allocation run that uses at most 5 labs
and pairwise-distinct dates, the total number of candidates assigned to any
single date, as computed by `count_students_per_date`, is at most 125.
(With more than 5 labs, or a repeated date token, a date can exceed 125 —
see the counterexample.) -/
theorem C3_per_date_at_most_125 (register_numbers dates labs : List String)
    (ie ee : List Examiner) (sems : List Semester) (dsub : List (String × String))
    (drn : List (String × List String))
    (hlabs : labs.length ≤ LABS_PER_DAY) (hnd : dates.Nodup) :
    ∀ e ∈ count_students_per_date
        (allocate_students register_numbers dates labs ie ee sems dsub drn),
      e.2 ≤ DAILY_CAPACITY := by
  intro e he
  rw [count_students_per_date_entries _ e he]
  have hbound : (((allocate_students register_numbers dates labs ie ee sems dsub drn).filter
      (fun t => t.date = e.1)).map schedule_student_count).sum ≤
      labs.length * STUDENTS_PER_LAB := by
    unfold allocate_students
    by_cases hdrn : drn.isEmpty
    · rw [if_pos hdrn]
      exact seq_date_sum_le register_numbers register_numbers.length labs ie ee _ dsub
        dates 0 rfl (by omega) hnd e.1
    · rw [if_neg hdrn]
      exact keyed_date_sum_le labs ie ee _ dsub drn dates hnd e.1
  have hdc : DAILY_CAPACITY = 125 := rfl
  have hd125 : LABS_PER_DAY * STUDENTS_PER_LAB = 125 := rfl
  have hmul : labs.length * STUDENTS_PER_LAB ≤ LABS_PER_DAY * STUDENTS_PER_LAB :=
    Nat.mul_le_mul_right _ hlabs
  omega

/-- Counterexample to Claim C3 as stated: with 6 labs, a single date absorbs
150 candidates, exceeding 125; the 125 bound is not an invariant of
*every* allocation run. -/
theorem C3_counterexample :
    count_students_per_date
        (allocate_students (List.replicate 150 "r") ["01-01-25"]
          ["L1", "L2", "L3", "L4", "L5", "L6"] [] [] [] [] []) =
      [("01-01-25", 150)] ∧ ¬ (150 ≤ DAILY_CAPACITY) := by
  constructor
  · set_option maxRecDepth 4000 in decide
  · decide

/-- Witness for C3_per_date_at_most_125 at a concrete input. -/
theorem C3_per_date_at_most_125_witness :
    (("01-01-25", 1) : String × Nat).2 ≤ DAILY_CAPACITY :=
  C3_per_date_at_most_125 ["a"] ["01-01-25"] ["Lab 1"] [] [] [] [] []
    (by decide) (by decide) ("01-01-25", 1) (by decide)

/-! ### Claims C4 and C5: `select_optimal_dates` -/

lemma parse_all_some (l : List String) (h : ∀ d ∈ l, (parseDMY d).isSome) :
    ∃ ps, parse_all l = some ps ∧ ps.map Prod.fst = l := by
  induction l with
  | nil => exact ⟨[], rfl, rfl⟩
  | cons d l ih =>
    obtain ⟨ps, hps, hmap⟩ := ih (fun x hx => h x (List.mem_cons_of_mem _ hx))
    obtain ⟨o, ho⟩ := Option.isSome_iff_exists.mp (h d (List.mem_cons_self _ _))
    refine ⟨(d, o) :: ps, ?_, ?_⟩
    · unfold parse_all
      rw [ho, hps]
    · simp [hmap]

lemma sort_by_date_some (l : List String) (h : ∀ d ∈ l, (parseDMY d).isSome) :
    ∃ ps, sort_by_date l = some ps ∧ ps.length = l.length ∧ ∀ p ∈ ps, p.1 ∈ l := by
  obtain ⟨ps, hps, hmap⟩ := parse_all_some l h
  refine ⟨ps.mergeSort ordLE, ?_, ?_, ?_⟩
  · unfold sort_by_date
    rw [hps]
    rfl
  · rw [List.length_mergeSort]
    rw [← hmap, List.length_map]
  · intro p hp
    have hmem : p ∈ ps := (List.mergeSort_perm ps ordLE).mem_iff.mp hp
    rw [← hmap]
    exact List.mem_map_of_mem Prod.fst hmem

lemma headI_mem_of_ne_nil {α : Type} [Inhabited α] :
    ∀ {l : List α}, l ≠ [] → l.headI ∈ l
  | [], h => absurd rfl h
  | a :: t, _ => List.mem_cons_self a t

lemma greedy_walk_len (required gap : Int) :
    ∀ (rest selected : List (String × Nat)), (selected.length : Int) ≤ required →
      ((greedy_walk required gap selected rest).length : Int) ≤ required := by
  intro rest
  induction rest with
  | nil => intro selected hsel; simpa [greedy_walk] using hsel
  | cons d rest ih =>
    intro selected hsel
    unfold greedy_walk
    by_cases hstop : required ≤ (selected.length : Int)
    · rw [if_pos hstop]
      exact hsel
    · rw [if_neg hstop]
      by_cases hgap : gap ≤ ((natDist (selected.getLastD ("", 0)).2 d.2 : Nat) : Int)
      · rw [if_pos hgap]
        exact ih (selected ++ [d]) (by simp; omega)
      · rw [if_neg hgap]
        exact ih selected hsel

lemma greedy_walk_subset (required gap : Int) :
    ∀ (rest selected : List (String × Nat)), ∀ p ∈ greedy_walk required gap selected rest,
      p ∈ selected ∨ p ∈ rest := by
  intro rest
  induction rest with
  | nil => intro selected p hp; left; simpa [greedy_walk] using hp
  | cons d rest ih =>
    intro selected p hp
    unfold greedy_walk at hp
    by_cases hstop : required ≤ (selected.length : Int)
    · rw [if_pos hstop] at hp
      exact Or.inl hp
    · rw [if_neg hstop] at hp
      by_cases hgap : gap ≤ ((natDist (selected.getLastD ("", 0)).2 d.2 : Nat) : Int)
      · rw [if_pos hgap] at hp
        rcases ih (selected ++ [d]) p hp with h | h
        · rcases List.mem_append.mp h with h | h
          · exact Or.inl h
          · simp only [List.mem_singleton] at h
            exact Or.inr (h ▸ List.mem_cons_self _ _)
        · exact Or.inr (List.mem_cons_of_mem _ h)
      · rw [if_neg hgap] at hp
        rcases ih selected p hp with h | h
        · exact Or.inl h
        · exact Or.inr (List.mem_cons_of_mem _ h)

/-- Claim C5 (amended): for every available-date pool whose tokens are all
well-formed DD-MM-YY dates, and arbitrary integer candidate count and
minimum gap, `select_optimal_dates` raises no exception and returns a
(selected dates, message) pair.  (With a malformed token in a nonempty pool
and a nonzero required-day count, the chronological sort raises `ValueError`
from `parse_date` — see the counterexample.) -/
theorem C5_total_on_wellformed_pool (available_dates : List String)
    (student_count min_gap_days : Int)
    (hall : ∀ d ∈ available_dates, (parseDMY d).isSome) :
    ∃ r, select_optimal_dates available_dates student_count min_gap_days = some r := by
  unfold select_optimal_dates
  by_cases hemp : available_dates.isEmpty
  · rw [if_pos hemp]
    exact ⟨_, rfl⟩
  · rw [if_neg hemp]
    by_cases hreq : required_days_for student_count = 0
    · rw [if_pos hreq]
      exact ⟨_, rfl⟩
    · rw [if_neg hreq]
      obtain ⟨ps, hps, _, _⟩ := sort_by_date_some available_dates hall
      rw [hps, Option.map_some']
      exact ⟨_, rfl⟩

/-- Counterexample to Claim C5 as stated: a pool containing the malformed
token "xx" with one student makes `select_optimal_dates` raise (the model
returns `none`, standing for the uncaught `ValueError` of `parse_date`
inside `sorted(...)`), so the function is not total over arbitrary string
tokens. -/
theorem C5_counterexample : select_optimal_dates ["xx"] 1 1 = none := by
  decide

/-- Witness for C5_total_on_wellformed_pool at a concrete input. -/
theorem C5_total_on_wellformed_pool_witness :
    ∃ r, select_optimal_dates ["01-01-25"] 5 1 = some r :=
  C5_total_on_wellformed_pool ["01-01-25"] 5 1 (by decide)

/-- Claim C4: for every candidate count N ≥ 1, every minimum gap, and every
pool of well-formed date tokens with at least ⌈N/125⌉ entries,
`select_optimal_dates` returns exactly ⌈N/125⌉ dates, each drawn from the
pool — both on the greedy path and on the relaxed-fallback path. -/
theorem C4_returns_required_days (available_dates : List String)
    (student_count min_gap_days : Int)
    (hall : ∀ d ∈ available_dates, (parseDMY d).isSome)
    (hcount : 1 ≤ student_count)
    (hpool : required_days_for student_count ≤ (available_dates.length : Int)) :
    ∃ sel msg, select_optimal_dates available_dates student_count min_gap_days =
        some (sel, msg) ∧
      (sel.length : Int) = required_days_for student_count ∧
      ∀ d ∈ sel, d ∈ available_dates := by
  have hreq1 : 1 ≤ required_days_for student_count := by
    unfold required_days_for
    rw [if_pos (by omega), show DAILY_CAPACITY = 125 from rfl]
    omega
  have hne : available_dates ≠ [] := by
    intro hcontra
    rw [hcontra] at hpool
    simp at hpool
    omega
  obtain ⟨ps, hps, hlen, hmem⟩ := sort_by_date_some available_dates hall
  have hpsne : ps ≠ [] := by
    intro hcontra
    rw [hcontra] at hlen
    simp at hlen
    rw [← hlen] at hpool
    simp at hpool
    omega
  unfold select_optimal_dates
  rw [if_neg (by simpa [List.isEmpty_iff] using hne), if_neg (by omega), hps,
    Option.map_some']
  simp only
  rw [if_neg (by omega)]
  set required := required_days_for student_count with hreqdef
  by_cases hone : required = 1
  · rw [if_pos hone]
    refine ⟨[ps.headI.1], _, rfl, by simp [hone], ?_⟩
    intro d hd
    simp only [List.mem_singleton] at hd
    subst hd
    exact hmem _ (headI_mem_of_ne_nil hpsne)
  · rw [if_neg hone]
    have htake : ∀ k : Int, k = required →
        ((py_take ps k).map (fun p => p.1)).length = required.toNat ∧
        ∀ d ∈ (py_take ps k).map (fun p => p.1), d ∈ available_dates := by
      intro k hk
      subst hk
      constructor
      · rw [List.length_map]
        unfold py_take
        rw [if_pos (by omega)]
        rw [List.length_take]
        omega
      · intro d hd
        obtain ⟨p, hp, hpd⟩ := List.mem_map.mp hd
        have hpin : p ∈ ps := by
          unfold py_take at hp
          rw [if_pos (by omega)] at hp
          exact List.mem_of_mem_take hp
        exact hpd ▸ hmem p hpin
    by_cases hgap : min_gap_days ≤ 1
    · rw [if_pos hgap]
      obtain ⟨hl, hm⟩ := htake required rfl
      refine ⟨_, _, rfl, ?_, hm⟩
      rw [hl]
      omega
    · rw [if_neg hgap]
      set walk := greedy_walk required min_gap_days (ps.take 1) (ps.drop 1) with hwalk
      have hwlen : (walk.length : Int) ≤ required := by
        rw [hwalk]
        apply greedy_walk_len
        rw [List.length_take]
        have : ps.length ≠ 0 := by
          intro hcontra
          exact hpsne (List.length_eq_zero.mp hcontra)
        omega
      by_cases hshort : (walk.length : Int) < required
      · rw [if_pos hshort]
        obtain ⟨hl, hm⟩ := htake required rfl
        refine ⟨_, _, rfl, ?_, hm⟩
        rw [hl]
        omega
      · rw [if_neg hshort]
        refine ⟨_, _, rfl, ?_, ?_⟩
        · rw [List.length_map]
          omega
        · intro d hd
          obtain ⟨p, hp, hpd⟩ := List.mem_map.mp hd
          have hpin : p ∈ ps := by
            rcases greedy_walk_subset required min_gap_days (ps.drop 1) (ps.take 1) p
              (hwalk ▸ hp) with h | h
            · exact List.mem_of_mem_take h
            · exact List.mem_of_mem_drop h
          exact hpd ▸ hmem p hpin

/-- Witness for C4_returns_required_days: 126 students over a 2-date pool
with gap 2 (greedy path succeeds and returns both dates). -/
theorem C4_returns_required_days_witness :
    ∃ sel msg, select_optimal_dates ["01-01-25", "05-01-25"] 126 2 = some (sel, msg) ∧
      (sel.length : Int) = required_days_for 126 ∧
      ∀ d ∈ sel, d ∈ ["01-01-25", "05-01-25"] :=
  C4_returns_required_days ["01-01-25", "05-01-25"] 126 2 (by decide) (by decide) (by decide)

/-! ### Claims C7 and C10: cohort attribution -/

lemma mem_distincts {α : Type} [DecidableEq α] (l : List α) (x : α) :
    x ∈ distincts l ↔ x ∈ l := by
  induction l using distincts.induct with
  | case1 => simp [distincts]
  | case2 y rest ih =>
    rw [distincts]
    simp only [List.mem_cons, ih, List.mem_filter]
    constructor
    · rintro (h | ⟨h, _⟩)
      · exact Or.inl h
      · exact Or.inr h
    · rintro (h | h)
      · exact Or.inl h
      · by_cases hxy : x = y
        · exact Or.inl hxy
        · exact Or.inr ⟨h, by simp [hxy]⟩

lemma distincts_nodup {α : Type} [DecidableEq α] (l : List α) :
    (distincts l).Nodup := by
  induction l using distincts.induct with
  | case1 => simp [distincts]
  | case2 y rest ih =>
    rw [distincts]
    rw [List.nodup_cons]
    refine ⟨?_, ih⟩
    intro hy
    rw [mem_distincts] at hy
    simp at hy

lemma distincts_ne_nil {α : Type} [DecidableEq α] (l : List α) (h : l ≠ []) :
    distincts l ≠ [] := by
  cases l with
  | nil => exact absurd rfl h
  | cons x rest => rw [distincts]; simp

lemma upd_fst (k : String × String) (e : (String × String) × Nat) :
    ((if e.1 = k then (e.1, e.2 + 1) else e) : (String × String) × Nat).1 = e.1 := by
  by_cases h : e.1 = k <;> simp [h]

lemma any_map_upd (m : List ((String × String) × Nat)) (k k' : String × String) :
    ((m.map (fun e => if e.1 = k then (e.1, e.2 + 1) else e)).any (fun e => e.1 = k')) =
      m.any (fun e => e.1 = k') := by
  rw [List.any_map]
  congr 1
  funext e
  simp only [Function.comp_apply, upd_fst]

/-- The Python tally loop `m[k] = m.get(k, 0) + 1` over `ks`, started from
`m`: existing entries keep their position and gain their key's multiplicity
in `ks`; keys new to `m` are appended in first-occurrence order with their
full multiplicity. -/
lemma tally_fold (ks : List (String × String)) :
    ∀ m : List ((String × String) × Nat),
      ks.foldl dict_bump m =
        m.map (fun e => (e.1, e.2 + ks.count e.1)) ++
          (distincts (ks.filter (fun k => ¬ m.any (fun e => e.1 = k)))).map
            (fun k => (k, ks.count k)) := by
  induction ks with
  | nil =>
    intro m
    simp [distincts]
  | cons k rest ih =>
    intro m
    rw [List.foldl_cons, ih (dict_bump m k)]
    unfold dict_bump
    by_cases hk : m.any (fun e => e.1 = k)
    · rw [if_pos hk]
      have hfilteq : (rest.filter (fun k' =>
          ¬ (m.map (fun e => if e.1 = k then (e.1, e.2 + 1) else e)).any
            (fun e => e.1 = k'))) =
          rest.filter (fun k' => ¬ m.any (fun e => e.1 = k')) := by
        apply List.filter_congr
        intro x _
        rw [any_map_upd]
      have hconsfilt : ((k :: rest).filter (fun k' => ¬ m.any (fun e => e.1 = k'))) =
          rest.filter (fun k' => ¬ m.any (fun e => e.1 = k')) := by
        rw [List.filter_cons, if_neg (by simp [hk])]
      rw [hfilteq, hconsfilt]
      congr 1
      · rw [List.map_map]
        apply List.map_congr_left
        intro e _
        simp only [Function.comp_apply]
        by_cases he : e.1 = k
        · rw [if_pos he, List.count_cons]
          simp [he, Nat.add_assoc, Nat.add_comm 1]
        · rw [if_neg he, List.count_cons]
          have h2 : ¬ (k == e.1) = true := by
            simp only [beq_iff_eq]
            exact fun h => he h.symm
          simp [h2]
      · apply List.map_congr_left
        intro x hx
        have hxmem : x ∈ rest.filter (fun k' => ¬ m.any (fun e => e.1 = k')) :=
          (mem_distincts _ _).mp hx
        have hxk : ¬ x = k := by
          intro hcontra
          have hmem2 := (List.mem_filter.mp hxmem).2
          rw [hcontra] at hmem2
          simp [hk] at hmem2
        rw [List.count_cons]
        have h2 : ¬ (k == x) = true := by
          simp only [beq_iff_eq]
          exact fun h => hxk h.symm
        simp [h2]
    · rw [if_neg hk]
      have hconsfilt : ((k :: rest).filter (fun k' => ¬ m.any (fun e => e.1 = k'))) =
          k :: rest.filter (fun k' => ¬ m.any (fun e => e.1 = k')) := by
        rw [List.filter_cons, if_pos (by simp [hk])]
      have hfilteq : (rest.filter (fun k' =>
          ¬ (m ++ [(k, 1)]).any (fun e => e.1 = k'))) =
          (rest.filter (fun k' => ¬ m.any (fun e => e.1 = k'))).filter
            (fun y => y ≠ k) := by
        rw [List.filter_filter]
        apply List.filter_congr
        intro x _
        by_cases h1 : x = k
        · subst h1
          simp
        · have h2 : ¬ k = x := fun h => h1 h.symm
          simp [h1, h2]
      have hmpart : (m.map (fun e => (e.1, e.2 + rest.count e.1))) =
          m.map (fun e => (e.1, e.2 + (k :: rest).count e.1)) := by
        apply List.map_congr_left
        intro e he
        have hek : ¬ e.1 = k := fun hcontra =>
          hk (List.any_eq_true.mpr ⟨e, he, by simp [hcontra]⟩)
        rw [List.count_cons]
        have h2 : ¬ (k == e.1) = true := by
          simp only [beq_iff_eq]
          exact fun h => hek h.symm
        simp [h2]
      have htail : ((distincts (rest.filter (fun k' =>
          ¬ (m ++ [(k, 1)]).any (fun e => e.1 = k')))).map
            (fun k' => (k', rest.count k'))) =
          ((distincts ((rest.filter (fun k' => ¬ m.any (fun e => e.1 = k'))).filter
            (fun y => y ≠ k))).map (fun k' => (k', (k :: rest).count k'))) := by
        rw [hfilteq]
        apply List.map_congr_left
        intro x hx
        have hxk : ¬ x = k := by
          have hxmem := (mem_distincts _ _).mp hx
          have h2 := (List.mem_filter.mp hxmem).2
          simpa using h2
        rw [List.count_cons]
        have h2 : ¬ (k == x) = true := by
          simp only [beq_iff_eq]
          exact fun h => hxk h.symm
        simp [h2]
      rw [List.map_append, hmpart, htail, hconsfilt, distincts]
      simp only [List.map_cons, List.map_nil, List.append_assoc, List.singleton_append,
        List.cons_append, List.nil_append]
      congr 2
      rw [List.count_cons]
      simp [Nat.add_comm]

lemma tallies_eq (ks : List (String × String)) :
    ks.foldl dict_bump [] = (distincts ks).map (fun k => (k, ks.count k)) := by
  rw [tally_fold ks []]
  simp

/-- Python's `max(items, key=...)`, as the left fold that keeps the first
maximum: the result splits the list into a strictly-smaller prefix, the
result itself, and a no-larger tail. -/
lemma foldl_max_first {β : Type} (val : β → Nat) :
    ∀ (l : List β) (b : β),
      ∃ l1 l2,
        b :: l = l1 ++ (l.foldl (fun best e => if val best < val e then e else best) b) :: l2 ∧
        (∀ e ∈ l1, val e < val (l.foldl (fun best e => if val best < val e then e else best) b)) ∧
        (∀ e ∈ b :: l, val e ≤ val (l.foldl (fun best e => if val best < val e then e else best) b)) := by
  intro l
  induction l with
  | nil =>
    intro b
    exact ⟨[], [], rfl, by simp, by simp⟩
  | cons d rest ih =>
    intro b
    rw [List.foldl_cons]
    by_cases h : val b < val d
    · rw [if_pos h]
      obtain ⟨l1, l2, heq, hlt, hle⟩ := ih d
      refine ⟨b :: l1, l2, ?_, ?_, ?_⟩
      · rw [List.cons_append, ← heq]
      · intro e he
        rcases List.mem_cons.mp he with he | he
        · subst he
          exact lt_of_lt_of_le h (hle d (List.mem_cons_self _ _))
        · exact hlt e he
      · intro e he
        rcases List.mem_cons.mp he with he | he
        · subst he
          exact le_of_lt (lt_of_lt_of_le h (hle d (List.mem_cons_self _ _)))
        · exact hle e he
    · rw [if_neg h]
      obtain ⟨l1, l2, heq, hlt, hle⟩ := ih b
      have hdb : val d ≤ val b := by omega
      cases l1 with
      | nil =>
        simp only [List.nil_append] at heq
        have hb : b = rest.foldl (fun best e => if val best < val e then e else best) b :=
          (List.cons.injEq _ _ _ _ ▸ heq).1
        have hrest : rest = l2 := (List.cons.injEq _ _ _ _ ▸ heq).2
        refine ⟨[], d :: l2, ?_, by simp, ?_⟩
        · simp only [List.nil_append]
          rw [← hb, ← hrest]
        · intro e he
          rcases List.mem_cons.mp he with he | he
          · rw [he]
            exact hle b (List.mem_cons_self _ _)
          · rcases List.mem_cons.mp he with he | he
            · rw [he]
              exact le_trans hdb (hle b (List.mem_cons_self _ _))
            · exact hle e (List.mem_cons_of_mem _ he)
      | cons x t =>
        simp only [List.cons_append] at heq
        have hx : b = x := (List.cons.injEq _ _ _ _ ▸ heq).1
        have hrest : rest = t ++ (rest.foldl (fun best e => if val best < val e then e else best) b) :: l2 :=
          (List.cons.injEq _ _ _ _ ▸ heq).2
        refine ⟨b :: d :: t, l2, ?_, ?_, ?_⟩
        · simp only [List.cons_append]
          rw [← hrest]
        · intro e he
          have hbr : val b < val (rest.foldl (fun best e => if val best < val e then e else best) b) := by
            have := hlt x (List.mem_cons_self _ _)
            rw [← hx] at this
            exact this
          rcases List.mem_cons.mp he with he | he
          · subst he
            exact hbr
          · rcases List.mem_cons.mp he with he | he
            · subst he
              exact lt_of_le_of_lt hdb hbr
            · exact hlt e (List.mem_cons_of_mem _ he)
        · intro e he
          rcases List.mem_cons.mp he with he | he
          · rw [he]
            exact hle b (List.mem_cons_self _ _)
          · rcases List.mem_cons.mp he with he | he
            · rw [he]
              exact le_trans hdb (hle b (List.mem_cons_self _ _))
            · exact hle e (List.mem_cons_of_mem _ he)

lemma foldl_max_map {α β : Type} (g : α → β) (val : β → Nat) :
    ∀ (D : List α) (d0 : α),
      (D.map g).foldl (fun best e => if val best < val e then e else best) (g d0) =
        g (D.foldl (fun best k => if val (g best) < val (g k) then k else best) d0) := by
  intro D
  induction D with
  | nil => intro d0; rfl
  | cons d D ih =>
    intro d0
    simp only [List.map_cons, List.foldl_cons]
    by_cases h : val (g d0) < val (g d)
    · rw [if_pos h, if_pos h, ih]
    · rw [if_neg h, if_neg h, ih]

lemma chunk_fold_eq (rl : List (String × String × String)) (chunk : List String) :
    ∀ m, chunk.foldl (fun m reg =>
        match dict_lookup rl reg with
        | some sem_batch => dict_bump m sem_batch
        | none => m) m =
      (chunk.filterMap (fun reg => dict_lookup rl reg)).foldl dict_bump m := by
  induction chunk with
  | nil => intro m; rfl
  | cons reg chunk ih =>
    intro m
    rw [List.foldl_cons, List.filterMap_cons]
    cases h : dict_lookup rl reg with
    | none =>
      simp only [h]
      exact ih m
    | some sb =>
      simp only [h, List.foldl_cons]
      exact ih (dict_bump m sb)

lemma chunk_sem_batch_empty (rl : List (String × String × String)) (chunk : List String)
    (hrl : rl ≠ [])
    (hmap : (chunk.filterMap (fun reg => dict_lookup rl reg)).foldl dict_bump [] = []) :
    chunk_sem_batch rl chunk = (none, none) := by
  unfold chunk_sem_batch
  rw [if_neg (by simpa [List.isEmpty_iff] using hrl)]
  have hbc : (chunk.foldl (fun m reg =>
      match dict_lookup rl reg with
      | some sem_batch => dict_bump m sem_batch
      | none => m) []) = [] := by
    rw [chunk_fold_eq]
    exact hmap
  rw [hbc]

lemma chunk_sem_batch_cons (rl : List (String × String × String)) (chunk : List String)
    (hrl : rl ≠ []) (t0 : (String × String) × Nat) (trest : List ((String × String) × Nat))
    (hbc : (chunk.filterMap (fun reg => dict_lookup rl reg)).foldl dict_bump [] =
      t0 :: trest) :
    chunk_sem_batch rl chunk =
      (some ((trest.foldl (fun best e => if best.2 < e.2 then e else best) t0).1.1),
       some (if 1 < (t0 :: trest).length then
          String.intercalate ", " ((distincts ((t0 :: trest).map (fun e => e.1.2))).mergeSort
            (fun a b => decide (a ≤ b)))
        else (trest.foldl (fun best e => if best.2 < e.2 then e else best) t0).1.2)) := by
  unfold chunk_sem_batch
  rw [if_neg (by simpa [List.isEmpty_iff] using hrl)]
  have hbc' : (chunk.foldl (fun m reg =>
      match dict_lookup rl reg with
      | some sem_batch => dict_bump m sem_batch
      | none => m) []) = t0 :: trest := by
    rw [chunk_fold_eq]
    exact hbc
  rw [hbc']

lemma find?_first_max (mapped l1 l2 : List (String × String)) (kstar : String × String)
    (hlt : ∀ x ∈ l1, mapped.count x < mapped.count kstar)
    (hmax : ∀ q ∈ mapped, mapped.count q ≤ mapped.count kstar)
    (hstar : kstar ∈ mapped) :
    (l1 ++ kstar :: l2).find?
      (fun k => decide (∀ q ∈ mapped, mapped.count q ≤ mapped.count k)) = some kstar := by
  rw [List.find?_append]
  have h1 : (l1.find? (fun k => decide (∀ q ∈ mapped, mapped.count q ≤ mapped.count k))) =
      none := by
    rw [List.find?_eq_none]
    intro x hx
    simp only [decide_eq_true_eq]
    intro hall
    have h2 := hall kstar hstar
    have h3 := hlt x hx
    omega
  rw [h1, Option.none_or,
    List.find?_cons_of_pos _ (by simp only [decide_eq_true_eq]; exact hmax)]

/-- Claim C10: ties in the per-chunk cohort tally are broken by
first-encounter order — the semester written to the schedule is that of the
first pair in chunk order (equivalently, first-insertion order of the tally
map) whose tally is maximal, so attribution is deterministic under count
ties. -/
theorem C10_first_encountered_max_pair (rl : List (String × String × String))
    (chunk : List String) (hrl : rl ≠ [])
    (hne : chunk.filterMap (fun reg => dict_lookup rl reg) ≠ []) :
    ∃ p, first_max_pair (chunk.filterMap (fun reg => dict_lookup rl reg)) = some p ∧
      (chunk_sem_batch rl chunk).1 = some p.1 := by
  set mapped := chunk.filterMap (fun reg => dict_lookup rl reg) with hmapped
  obtain ⟨d0, dr, hD0⟩ := List.exists_cons_of_ne_nil (distincts_ne_nil mapped hne)
  have htal : mapped.foldl dict_bump [] =
      ((d0, mapped.count d0) : (String × String) × Nat) ::
        dr.map (fun k => (k, mapped.count k)) := by
    rw [tallies_eq, hD0, List.map_cons]
  have hcsb := chunk_sem_batch_cons rl chunk hrl _ _ htal
  set kstar := dr.foldl
    (fun best e => if mapped.count best < mapped.count e then e else best) d0 with hkstar
  have hfold : ((dr.map (fun k => (k, mapped.count k))).foldl
      (fun best e => if best.2 < e.2 then e else best)
      ((d0, mapped.count d0) : (String × String) × Nat)) =
      (kstar, mapped.count kstar) := by
    rw [hkstar]
    exact foldl_max_map (fun k => (k, mapped.count k)) (fun e => e.2) dr d0
  obtain ⟨l1, l2, hsplit, hlt, hle⟩ :=
    foldl_max_first (fun k => mapped.count k) dr d0
  have hstar_mem_D : kstar ∈ d0 :: dr := by
    rw [hsplit]
    exact List.mem_append_right _ (List.mem_cons_self _ _)
  have hstar : kstar ∈ mapped := by
    rw [← mem_distincts, hD0]
    exact hstar_mem_D
  have hmax : ∀ q ∈ mapped, mapped.count q ≤ mapped.count kstar := by
    intro q hq
    have hqD : q ∈ d0 :: dr := by
      rw [← hD0, mem_distincts]
      exact hq
    exact hle q hqD
  refine ⟨kstar, ?_, ?_⟩
  · unfold first_max_pair
    rw [hD0, hsplit]
    exact find?_first_max mapped l1 l2 kstar hlt hmax hstar
  · rw [hcsb]
    simp only [hfold]

/-- Witness for C10_first_encountered_max_pair at a concrete input. -/
theorem C10_first_encountered_max_pair_witness :
    ∃ p, first_max_pair (["r1"].filterMap
        (fun reg => dict_lookup [("r1", ("S1", "S1A"))] reg)) = some p ∧
      (chunk_sem_batch [("r1", ("S1", "S1A"))] ["r1"]).1 = some p.1 :=
  C10_first_encountered_max_pair [("r1", ("S1", "S1A"))] ["r1"] (by decide) (by decide)

lemma string_le_trans : ∀ a b c : String,
    decide (a ≤ b) = true → decide (b ≤ c) = true → decide (a ≤ c) = true :=
  fun _ _ _ h1 h2 =>
    decide_eq_true (le_trans (of_decide_eq_true h1) (of_decide_eq_true h2))

lemma string_le_total : ∀ a b : String, (decide (a ≤ b) || decide (b ≤ a)) = true := by
  intro a b
  rcases le_total a b with h | h <;> simp [h]

/-- Claim C7: per-chunk cohort attribution with a lookup present.  If no
candidate of the chunk maps to a cohort pair, both fields stay unset.
Otherwise the semester comes from a pair of maximal tally; with exactly one
distinct pair the batch is that pair's label, and with several distinct
pairs the batch becomes the comma-joined, lexicographically sorted list of
all distinct batch labels observed in the chunk (semester still from the
most frequent pair). -/
theorem C7_cohort_attribution (rl : List (String × String × String))
    (chunk : List String) (hrl : rl ≠ []) :
    (chunk.filterMap (fun reg => dict_lookup rl reg) = [] →
      chunk_sem_batch rl chunk = (none, none)) ∧
    (chunk.filterMap (fun reg => dict_lookup rl reg) ≠ [] →
      ∃ p ∈ chunk.filterMap (fun reg => dict_lookup rl reg),
        (∀ q ∈ chunk.filterMap (fun reg => dict_lookup rl reg),
            (chunk.filterMap (fun reg => dict_lookup rl reg)).count q ≤
              (chunk.filterMap (fun reg => dict_lookup rl reg)).count p) ∧
        (chunk_sem_batch rl chunk).1 = some p.1 ∧
        ((distincts (chunk.filterMap (fun reg => dict_lookup rl reg))).length = 1 →
          (chunk_sem_batch rl chunk).2 = some p.2) ∧
        (1 < (distincts (chunk.filterMap (fun reg => dict_lookup rl reg))).length →
          ∃ L : List String, L.Nodup ∧ List.Sorted (· ≤ ·) L ∧
            (∀ b, b ∈ L ↔
              b ∈ (chunk.filterMap (fun reg => dict_lookup rl reg)).map (fun q => q.2)) ∧
            (chunk_sem_batch rl chunk).2 = some (String.intercalate ", " L))) := by
  set mapped := chunk.filterMap (fun reg => dict_lookup rl reg) with hmapped
  constructor
  · intro hmap
    exact chunk_sem_batch_empty rl chunk hrl (by rw [← hmapped, hmap]; rfl)
  · intro hne
    obtain ⟨d0, dr, hD0⟩ := List.exists_cons_of_ne_nil (distincts_ne_nil mapped hne)
    have htal : mapped.foldl dict_bump [] =
        ((d0, mapped.count d0) : (String × String) × Nat) ::
          dr.map (fun k => (k, mapped.count k)) := by
      rw [tallies_eq, hD0, List.map_cons]
    have hcsb := chunk_sem_batch_cons rl chunk hrl _ _ htal
    set kstar := dr.foldl
      (fun best e => if mapped.count best < mapped.count e then e else best) d0 with hkstar
    have hfold : ((dr.map (fun k => (k, mapped.count k))).foldl
        (fun best e => if best.2 < e.2 then e else best)
        ((d0, mapped.count d0) : (String × String) × Nat)) =
        (kstar, mapped.count kstar) := by
      rw [hkstar]
      exact foldl_max_map (fun k => (k, mapped.count k)) (fun e => e.2) dr d0
    obtain ⟨l1, l2, hsplit, hlt, hle⟩ :=
      foldl_max_first (fun k => mapped.count k) dr d0
    have hstar : kstar ∈ mapped := by
      rw [← mem_distincts, hD0, hsplit]
      exact List.mem_append_right _ (List.mem_cons_self _ _)
    have hmax : ∀ q ∈ mapped, mapped.count q ≤ mapped.count kstar := by
      intro q hq
      have hqD : q ∈ d0 :: dr := by
        rw [← hD0, mem_distincts]
        exact hq
      exact hle q hqD
    have hlabels : (((d0, mapped.count d0) : (String × String) × Nat) ::
        dr.map (fun k => (k, mapped.count k))).map (fun e => e.1.2) =
        (d0 :: dr).map (fun k => k.2) := by
      simp [List.map_map]
    refine ⟨kstar, hstar, hmax, ?_, ?_, ?_⟩
    · rw [hcsb]
      simp only [hfold]
    · intro hlen1
      rw [hD0] at hlen1
      simp only [List.length_cons] at hlen1
      have hdr : dr = [] := List.length_eq_zero.mp (by omega)
      rw [hcsb]
      simp only [hfold]
      rw [if_neg (by simp [hdr])]
    · intro hlen2
      rw [hD0] at hlen2
      simp only [List.length_cons] at hlen2
      have hdr : dr ≠ [] := by
        intro hcontra
        rw [hcontra] at hlen2
        simp at hlen2
      refine ⟨(distincts ((d0 :: dr).map (fun k => k.2))).mergeSort
        (fun a b => decide (a ≤ b)), ?_, ?_, ?_, ?_⟩
      · exact ((List.mergeSort_perm _ _).nodup_iff).mpr (distincts_nodup _)
      · exact List.Pairwise.imp (fun h => of_decide_eq_true h)
          (List.sorted_mergeSort string_le_trans string_le_total _)
      · intro b
        rw [(List.mergeSort_perm _ _).mem_iff, mem_distincts, ← hD0]
        simp only [List.mem_map]
        constructor
        · rintro ⟨k, hk, hkb⟩
          exact ⟨k, (mem_distincts mapped k).mp hk, hkb⟩
        · rintro ⟨k, hk, hkb⟩
          exact ⟨k, (mem_distincts mapped k).mpr hk, hkb⟩
      · rw [hcsb]
        simp only [hfold]
        rw [if_pos (by simp only [List.length_cons, List.length_map]; omega), hlabels]

/-- Witness for C7_cohort_attribution at a concrete input (empty chunk
maps to no cohort). -/
theorem C7_cohort_attribution_witness :
    chunk_sem_batch [("r1", ("S1", "S1A"))] [] = (none, none) :=
  (C7_cohort_attribution [("r1", ("S1", "S1A"))] [] (by decide)).1 (by decide)

/-! ### Claim C6: `parse_dates` -/

lemma numVal_two_le (c1 c2 : Char) (h1 : isDigitChar c1 = true)
    (h2 : isDigitChar c2 = true) : numVal [c1, c2] ≤ 99 := by
  unfold isDigitChar at h1 h2
  simp only [Bool.and_eq_true, decide_eq_true_eq] at h1 h2
  unfold numVal digitVal
  simp only [List.foldl_cons, List.foldl_nil]
  omega

lemma daysInMonth_le (year month : Nat) : daysInMonth year month ≤ 31 := by
  unfold daysInMonth
  split_ifs <;> simp

lemma daysFromCivil_lt_max (y m d : Nat) (hy : y ≤ 2068) (hm : m ≤ 12) (hd : d ≤ 31) :
    daysFromCivil y m d < dateMaxOrd := by
  have hmax : dateMaxOrd = 3652364 := by decide
  unfold daysFromCivil
  dsimp only
  split_ifs <;> omega

lemma validYear_le (ys : List Char) (h : validYear ys = true) : numVal ys ≤ 99 := by
  rcases ys with _ | ⟨c1, _ | ⟨c2, _ | ⟨c3, t⟩⟩⟩
  · simp [validYear] at h
  · simp [validYear] at h
  · unfold validYear at h
    simp only [Bool.and_eq_true] at h
    exact numVal_two_le c1 c2 h.1 h.2
  · simp [validYear] at h

lemma validMonth_le (ms : List Char) (h : validMonth ms = true) : numVal ms ≤ 12 := by
  rcases ms with _ | ⟨c1, _ | ⟨c2, _ | ⟨c3, t⟩⟩⟩
  · simp [validMonth] at h
  · unfold validMonth at h
    simp only [Bool.and_eq_true, decide_eq_true_eq] at h
    unfold numVal digitVal
    simp only [List.foldl_cons, List.foldl_nil]
    omega
  · unfold validMonth at h
    simp only [Bool.and_eq_true, decide_eq_true_eq] at h
    exact h.2.2
  · simp [validMonth] at h

lemma parseDMY_lt_max (s : String) (o : Nat) (h : parseDMY s = some o) :
    o < dateMaxOrd := by
  unfold parseDMY at h
  rcases hsp : splitDashes s.toList with _ | ⟨ds, _ | ⟨ms, _ | ⟨ys, _ | ⟨z, zs⟩⟩⟩⟩ <;>
    rw [hsp] at h
  · simp at h
  · simp at h
  · simp at h
  · have h' : (if validDay ds && validMonth ms && validYear ys then
        (if numVal ds ≤ daysInMonth (yearOfYY (numVal ys)) (numVal ms) then
          some (daysFromCivil (yearOfYY (numVal ys)) (numVal ms) (numVal ds)) else none)
        else none) = some o := h
    by_cases hv : (validDay ds && validMonth ms && validYear ys) = true
    · rw [if_pos hv] at h'
      simp only [Bool.and_eq_true] at hv
      split_ifs at h' with hdm
      · have ho : daysFromCivil (yearOfYY (numVal ys)) (numVal ms) (numVal ds) = o :=
          Option.some.inj h'
        have hy : yearOfYY (numVal ys) ≤ 2068 := by
          have hys : numVal ys ≤ 99 := validYear_le ys hv.2
          unfold yearOfYY
          split_ifs <;> omega
        have hm : numVal ms ≤ 12 := validMonth_le ms hv.1.2
        have hd : numVal ds ≤ 31 :=
          le_trans hdm (daysInMonth_le _ _)
        rw [← ho]
        exact daysFromCivil_lt_max _ _ _ hy hm hd
    · rw [if_neg hv] at h'
      simp at h'
  · simp at h

lemma pyDateKey_le_max (s : String) : pyDateKey s ≤ dateMaxOrd := by
  unfold pyDateKey
  cases h : parseDMY s with
  | none => simp
  | some o =>
    simp only [Option.getD_some]
    exact le_of_lt (parseDMY_lt_max s o h)

lemma pyDateKey_eq_max_iff (s : String) :
    pyDateKey s = dateMaxOrd ↔ (parseDMY s).isNone = true := by
  unfold pyDateKey
  cases h : parseDMY s with
  | none => simp
  | some o =>
    simp only [Option.getD_some, Option.isSome_some]
    constructor
    · intro heq
      exact absurd heq (Nat.ne_of_lt (parseDMY_lt_max s o h))
    · intro hcontra
      simp at hcontra

lemma keyLE_trans : ∀ a b c : Nat × String,
    keyLE a b = true → keyLE b c = true → keyLE a c = true := by
  intro a b c h1 h2
  unfold keyLE at h1 h2 ⊢
  simp only [decide_eq_true_eq] at h1 h2 ⊢
  omega

lemma keyLE_total : ∀ a b : Nat × String, (keyLE a b || keyLE b a) = true := by
  intro a b
  unfold keyLE
  rcases Nat.le_total a.1 b.1 with h | h <;> simp [h]

lemma pairwise_filter_partition {α : Type} (R : α → α → Prop) (p : α → Bool)
    (hdown : ∀ a b, R a b → p a = false → p b = false) :
    ∀ l : List α, l.Pairwise R → l.filter p ++ l.filter (fun x => ! p x) = l := by
  intro l
  induction l with
  | nil => intro _; rfl
  | cons x l ih =>
    intro hpw
    rw [List.pairwise_cons] at hpw
    cases hx : p x
    · have hall : ∀ b ∈ l, p b = false := fun b hb => hdown x b (hpw.1 b hb) hx
      rw [@List.filter_cons_of_neg _ p x l (by simp [hx]),
        @List.filter_cons_of_pos _ (fun x => ! p x) x l (by simp [hx])]
      have h1 : l.filter p = [] :=
        List.filter_eq_nil_iff.mpr (fun b hb => by simp [hall b hb])
      have h2 : l.filter (fun x => ! p x) = l :=
        List.filter_eq_self.mpr (fun b hb => by simp [hall b hb])
      rw [h1, h2]
      rfl
    · rw [@List.filter_cons_of_pos _ p x l (by simp [hx]),
        @List.filter_cons_of_neg _ (fun x => ! p x) x l (by simp [hx])]
      rw [List.cons_append, ih hpw.2]

/-- Claim C6 (amended): `parse_dates` returns the same multiset of
*stripped* tokens (each token has surrounding whitespace removed, as
`date_str.strip()` does): output is a permutation of the stripped inputs,
its keys (parsed date, `datetime.max` for malformed) are non-decreasing —
so well-formed tokens come first in chronologically ascending order and
malformed tokens sort last — and the malformed tokens keep their original
relative order among themselves. -/
theorem C6_parse_dates_sorted_stable (date_strings : List String) :
    (parse_dates date_strings).Perm (date_strings.map pyStrip) ∧
    List.Pairwise (fun a b => pyDateKey a ≤ pyDateKey b) (parse_dates date_strings) ∧
    (parse_dates date_strings) =
      (parse_dates date_strings).filter (fun s => (parseDMY s).isSome) ++
        (parse_dates date_strings).filter (fun s => ! (parseDMY s).isSome) ∧
    (parse_dates date_strings).filter (fun s => (parseDMY s).isNone) =
      (date_strings.map pyStrip).filter (fun s => (parseDMY s).isNone) := by
  unfold parse_dates
  set pairs := date_strings.map (fun s => (pyDateKey (pyStrip s), pyStrip s)) with hpairs
  set sorted := pairs.mergeSort keyLE with hsorted
  have hinv : ∀ p ∈ pairs, p.1 = pyDateKey p.2 := by
    intro p hp
    rw [hpairs] at hp
    obtain ⟨s, _, hs⟩ := List.mem_map.mp hp
    rw [← hs]
  have hinv' : ∀ p ∈ sorted, p.1 = pyDateKey p.2 := fun p hp =>
    hinv p ((List.mergeSort_perm pairs keyLE).mem_iff.mp hp)
  have hperm : (sorted.map (fun p => p.2)).Perm (date_strings.map pyStrip) := by
    have h1 : (pairs.map (fun p => p.2)) = date_strings.map pyStrip := by
      rw [hpairs, List.map_map]
      rfl
    rw [← h1]
    exact (List.mergeSort_perm pairs keyLE).map _
  have hpw : List.Pairwise (fun a b => pyDateKey a ≤ pyDateKey b)
      (sorted.map (fun p => p.2)) := by
    rw [List.pairwise_map]
    have hs := List.sorted_mergeSort keyLE_trans keyLE_total pairs
    rw [← hsorted] at hs
    refine List.Pairwise.imp_of_mem ?_ hs
    intro a b ha hb hr
    rw [← hinv' a ha, ← hinv' b hb]
    unfold keyLE at hr
    exact of_decide_eq_true hr
  refine ⟨hperm, hpw, ?_, ?_⟩
  · apply (pairwise_filter_partition (fun a b => pyDateKey a ≤ pyDateKey b)
      (fun s => (parseDMY s).isSome) ?_ _ hpw).symm
    intro a b hab hpa
    have hpa' : (parseDMY a).isSome = false := hpa
    have hka : pyDateKey a = dateMaxOrd := by
      rw [pyDateKey_eq_max_iff]
      rcases h : parseDMY a with _ | o
      · rfl
      · rw [h] at hpa'
        simp at hpa'
    have hkb : pyDateKey b = dateMaxOrd :=
      le_antisymm (pyDateKey_le_max b) (hka ▸ hab)
    rw [pyDateKey_eq_max_iff] at hkb
    show (parseDMY b).isSome = false
    rcases h : parseDMY b with _ | o
    · rfl
    · rw [h] at hkb
      simp at hkb
  · set mal := pairs.filter (fun p => p.1 = dateMaxOrd) with hmal
    have hmal_pw : mal.Pairwise (fun a b => keyLE a b = true) := by
      apply List.pairwise_of_forall_mem_list
      intro a ha b hb
      have ha' : a ∈ pairs.filter (fun p => decide (p.1 = dateMaxOrd)) := by
        rw [← hmal]
        exact ha
      have hb' : b ∈ pairs.filter (fun p => decide (p.1 = dateMaxOrd)) := by
        rw [← hmal]
        exact hb
      have ha1 := (List.mem_filter.mp ha').2
      have hb1 := (List.mem_filter.mp hb').2
      simp only [decide_eq_true_eq] at ha1 hb1
      unfold keyLE
      simp [ha1, hb1]
    have hmal_sub : mal.Sublist sorted := by
      rw [hsorted]
      exact List.sublist_mergeSort keyLE_trans keyLE_total hmal_pw
        (hmal ▸ List.filter_sublist pairs)
    have hmal_sub2 : mal.Sublist (sorted.filter (fun p => p.1 = dateMaxOrd)) := by
      have h1 : mal = mal.filter (fun p => p.1 = dateMaxOrd) := by
        rw [List.filter_eq_self.mpr]
        intro a ha
        have ha' : a ∈ pairs.filter (fun p => decide (p.1 = dateMaxOrd)) := by
          rw [← hmal]
          exact ha
        exact (List.mem_filter.mp ha').2
      rw [h1]
      exact List.Sublist.filter _ hmal_sub
    have hlen_eq : mal.length = (sorted.filter (fun p => p.1 = dateMaxOrd)).length := by
      rw [hmal]
      exact (((List.mergeSort_perm pairs keyLE).filter _).length_eq).symm
    have hmal_eq : sorted.filter (fun p => p.1 = dateMaxOrd) = mal :=
      (List.Sublist.eq_of_length hmal_sub2 hlen_eq).symm
    have hproj : ∀ (l : List (Nat × String)), (∀ p ∈ l, p.1 = pyDateKey p.2) →
        (l.map (fun p => p.2)).filter (fun s => (parseDMY s).isNone) =
          (l.filter (fun p => p.1 = dateMaxOrd)).map (fun p => p.2) := by
      intro l hl
      rw [List.filter_map]
      congr 1
      apply List.filter_congr
      intro p hp
      simp only [Function.comp_apply]
      rw [hl p hp]
      rcases h : parseDMY p.2 with _ | o
      · have hk : pyDateKey p.2 = dateMaxOrd := by
          unfold pyDateKey
          rw [h]
          rfl
        rw [hk]
        simp
      · have hk : pyDateKey p.2 = o := by
          unfold pyDateKey
          rw [h]
          rfl
        rw [hk]
        simp [Nat.ne_of_lt (parseDMY_lt_max p.2 o h)]
    have h1 : (pairs.map (fun p => p.2)) = date_strings.map pyStrip := by
      rw [hpairs, List.map_map]
      rfl
    rw [← h1, hproj sorted hinv', hproj pairs hinv, hmal_eq, ← hmal]

/-- Counterexample to Claim C6 as stated: a token with leading whitespace is
stripped, so the output multiset differs from the input multiset — the
input token " 01-01-25" (well-formed after stripping) is not among the
returned tokens. -/
theorem C6_counterexample :
    parse_dates [" 01-01-25"] = ["01-01-25"] ∧
      " 01-01-25" ∉ parse_dates [" 01-01-25"] := by
  have h : parse_dates [" 01-01-25"] = ["01-01-25"] := by
    unfold parse_dates
    simp only [List.map_cons, List.map_nil, List.mergeSort_singleton]
    decide
  refine ⟨h, ?_⟩
  rw [h]
  decide

/-! ### Claim C8: validator behaviour on malformed dates -/

/-- Claim C8 (amended): for every schedule request with at least one
register number whose date list contains a malformed token (not parseable
as DD-MM-YY after stripping), `validate_schedule_request` returns a hard
structural error tagged with the "dates" field.  (With zero register
numbers, date validation is skipped entirely and no dates-tagged error is
produced — see the counterexample; allocation is then blocked by the
register_numbers error instead.) -/
theorem C8_malformed_date_hard_error (request : ScheduleRequest)
    (hreg : request.register_numbers ≠ [])
    (hbad : ∃ d ∈ request.dates, (parseDMY (pyStrip d)).isNone = true) :
    ∃ e ∈ (validate_schedule_request request).1, e.field = "dates" := by
  have hdates_ne : ¬ request.dates.isEmpty = true := by
    obtain ⟨d, hd, _⟩ := hbad
    rw [List.isEmpty_iff]
    intro hcontra
    rw [hcontra] at hd
    simp at hd
  have hfind : (request.dates.find? (fun d => (parseDMY (pyStrip d)).isNone)).isSome := by
    rw [List.find?_isSome]
    exact hbad
  obtain ⟨bad, hbadfind⟩ := Option.isSome_iff_exists.mp hfind
  have hdc : (validate_dates request.dates request.register_numbers.length).1 =
      some { field := "dates",
             message := "Invalid date format: " ++ bad ++ ". Expected DD-MM-YY" } := by
    unfold validate_dates
    rw [if_neg hdates_ne, hbadfind]
  have h1 : validate_register_numbers request.register_numbers = none := by
    unfold validate_register_numbers
    rw [if_neg (by simpa [List.isEmpty_iff] using hreg)]
  have h2 : request.register_numbers.isEmpty = false := by
    simpa [List.isEmpty_eq_false] using hreg
  have h3 : (validate_labs request.labs).1 = none := by
    unfold validate_labs
    split_ifs <;> rfl
  unfold validate_schedule_request
  simp only [validate_exam_metadata, validate_internal_examiners,
    validate_external_examiners, h1, h2, h3, Bool.false_eq_true, if_false, hdc]
  refine ⟨{ field := "dates",
            message := "Invalid date format: " ++ bad ++ ". Expected DD-MM-YY" }, ?_, rfl⟩
  simp

/-- Counterexample to Claim C8 as stated: a request with a malformed date
token but zero register numbers yields no error tagged "dates" (date
validation is skipped when `register_numbers` is empty). -/
theorem C8_counterexample :
    (parseDMY (pyStrip "bad")).isNone = true ∧
      (∀ e ∈ (validate_schedule_request
          { exam_metadata := none, register_numbers := [], semesters := [],
            dates := ["bad"], exam_dates := [], labs := [],
            internal_examiners := [], external_examiners := [] }).1,
        e.field ≠ "dates") := by
  constructor
  · decide
  · decide

/-- Witness for C8_malformed_date_hard_error at a concrete input. -/
theorem C8_malformed_date_hard_error_witness :
    ∃ e ∈ (validate_schedule_request
        { exam_metadata := none, register_numbers := ["r1"], semesters := [],
          dates := ["bad"], exam_dates := [], labs := [],
          internal_examiners := [], external_examiners := [] }).1,
      e.field = "dates" :=
  C8_malformed_date_hard_error _ (by decide) ⟨"bad", by decide, by decide⟩

end SchedulerSpec
